import Mathlib

/-!
Verification of the directory-reconciliation and credential-lifecycle engine
of the `checkout` repository.

The development shallowly embeds the two core source files:

* the git auth helper (`configureAuth` / `removeAuth` and their pieces
  `configureSsh`, `configureToken`, `removeSsh`, `removeToken`,
  `removeGitConfig`), modelled over an explicit system state `Sys`;
* the source provider (`getSource`, `prepareExistingDirectory`), modelled as
  a pure function from an environment of collaborator outcomes to a result
  and a trace of events.

File contents (the persisted `.git/config`, the SSH key file, the known-hosts
file) are modelled as `List Char`, written `Str`, so that the JavaScript
string primitives used by the source (`indexOf`, `lastIndexOf`,
single-occurrence `replace`) can be given exact recursive definitions that
are amenable both to evaluation and to proof.
-/

namespace Checkout

/-- Character-list strings: the raw contents of files. -/
abbrev Str := List Char

/-! ## JavaScript string primitives over `Str`

`matchPos pat s` lists, in increasing order, every index `i` such that `pat`
occurs in `s` starting at `i` (the set of indices searched by JavaScript's
`String.prototype.indexOf` / `lastIndexOf`). -/

/-- All match positions of `pat` in `s`, in increasing order. -/
def matchPos (pat : Str) : Str → List Nat
  | [] => if pat.isPrefixOf [] then [0] else []
  | c :: rest =>
    (if pat.isPrefixOf (c :: rest) then [0] else []) ++ (matchPos pat rest).map (· + 1)

/-- Number of occurrences of `pat` in `s`. -/
def countOcc (pat s : Str) : Nat := (matchPos pat s).length

/-- JavaScript `s.indexOf(pat)`: first match position, `-1` when absent. -/
def jsIndexOf (pat s : Str) : Int :=
  match matchPos pat s with
  | [] => -1
  | i :: _ => (i : Int)

/-- JavaScript `s.lastIndexOf(pat)`: last match position, `-1` when absent. -/
def jsLastIndexOf (pat s : Str) : Int :=
  match (matchPos pat s).getLast? with
  | none => -1
  | some i => (i : Int)

/-- JavaScript `s.replace(pat, r)` for a plain-string `pat`: replace the
first occurrence only; the replacement strings used by the source contain no
`$` patterns, so plain splicing is exact. -/
def replaceFirst (s pat r : Str) : Str :=
  match matchPos pat s with
  | [] => s
  | i :: _ => s.take i ++ r ++ s.drop (i + pat.length)

/-! ## Line structure of the persisted configuration file

The persisted `.git/config` is modelled as a raw `Str` holding a sequence of
newline-terminated lines, one configuration entry per line.  `git config
<key> <value>` appends the entry line `<key> = <value>`; `git config
--unset <key>` removes the lines carrying `<key>`; existence is a scan for a
line carrying `<key>`. -/

/-- Split a raw string at every newline (JavaScript `split('\n')`). -/
def splitNL : Str → List Str
  | [] => [[]]
  | c :: rest =>
    if c = '\n' then [] :: splitNL rest
    else
      match splitNL rest with
      | [] => [[c]]
      | l :: ls => (c :: l) :: ls

/-- Serialize a list of lines into a newline-terminated file. -/
def joinTerm : List Str → Str
  | [] => []
  | l :: ls => l ++ '\n' :: joinTerm ls

/-- The entry lines of a newline-terminated configuration file. -/
def configLines (c : Str) : List Str := (splitNL c).dropLast

/-- The serialized form of the configuration entry `key = value`. -/
def keyLine (k : String) (v : Str) : Str := (k ++ " = ").toList ++ v

/-- Does line `l` carry configuration key `k`? -/
def isKeyLine (k : String) (l : Str) : Bool := ((k ++ " = ").toList).isPrefixOf l

/-- Model of `git config <key> <value>`: append the entry line. -/
def gitConfigSet (c : Str) (k : String) (v : Str) : Str := c ++ keyLine k v ++ ['\n']

/-- Model of `git config --get` existence: some line carries the key. -/
def configExists (k : String) (c : Str) : Bool := (configLines c).any (isKeyLine k)

/-- Model of a successful `git config --unset-all <key>`: drop the lines
carrying the key. -/
def unsetAll (k : String) (c : Str) : Str :=
  joinTerm ((configLines c).filter (fun l => ! isKeyLine k l))

/-! ## Base64 (RFC 4648) over byte lists

`configureToken` computes `base64("x-access-token:" + token)`.  Tokens are
ASCII, for which the UTF-8 bytes coincide with the character code points. -/

/-- The base64 digit alphabet. -/
def base64Chars : List Char :=
  "ABCDEFGHIJKLMNOPQRSTUVWXYZabcdefghijklmnopqrstuvwxyz0123456789+/".toList

/-- The base64 digit for a 6-bit value. -/
def base64Digit (n : Nat) : Char := base64Chars.getD n '?'

/-- Base64 encoding of a byte list (bytes < 256), with `=` padding. -/
def base64Bytes : List Nat → List Char
  | [] => []
  | [a] => [base64Digit (a / 4 % 64), base64Digit (a % 4 * 16), '=', '=']
  | [a, b] =>
    [base64Digit (a / 4 % 64), base64Digit (a % 4 * 16 + b / 16), base64Digit (b % 16 * 4), '=']
  | a :: b :: c :: rest =>
    base64Digit (a / 4 % 64) :: base64Digit (a % 4 * 16 + b / 16) ::
      base64Digit (b % 16 * 4 + c / 64) :: base64Digit (c % 64) :: base64Bytes rest

/-- Base64 of the UTF-8 bytes of an ASCII string (code points = bytes). -/
def base64OfString (x : String) : Str := base64Bytes (x.toList.map Char.toNat)

/-! ## Settings, environment and system state -/

/-- `IGitSourceSettings`, the per-sync immutable settings. -/
structure Settings where
  repositoryOwner : String
  repositoryName : String
  repositoryPath : String
  ref : String
  commit : String
  fetchDepth : Nat
  clean : Bool
  lfs : Bool
  sshKey : String
  sshStrict : Bool
  authToken : String
  persistCredentials : Bool
deriving DecidableEq, Repr

/-- External inputs of one auth-helper run: the generated uuid, the
`RUNNER_TEMP` variable, the result of `io.which('ssh')`, the contents of the
user's `~/.ssh/known_hosts` (`none` models ENOENT), and the failure modes of
the best-effort collaborators (`io.rmRF`, `git config --unset`). -/
structure Env where
  uuid : String
  runnerTemp : String
  sshPath : String
  userKnownHosts : Option Str
  unsetFails : String → Bool
  rmrfFails : String → Bool

/-- The durable and observable state threaded through the auth helper:
the persisted `.git/config` contents, the job temporary files, the git
process environment, the persisted job state (`stateHelper`), the helper's
in-memory path fields, and the externally observable sinks (commands passed
to `exec`, captured process output, registered secrets, warnings). -/
@[ext]
structure Sys where
  config : Str
  files : String → Option Str
  gitEnv : String → Option String
  stateSshKeyPath : String
  stateSshKnownHostsPath : String
  memSshKeyPath : String
  memSshKnownHostsPath : String
  execLog : List String
  outputLog : List Str
  secrets : List Str
  warnings : List String

/-- Write a file. -/
def fsWrite (f : String → Option Str) (p : String) (v : Str) : String → Option Str :=
  fun q => if q = p then some v else f q

/-- Delete a file (`io.rmRF`). -/
def fsRemove (f : String → Option Str) (p : String) : String → Option Str :=
  fun q => if q = p then none else f q

/-- `http.https://github.com/.extraheader`. -/
def extraHeaderKey : String := "http.https://github.com/.extraheader"

/-- `core.sshCommand`. -/
def sshCommandKey : String := "core.sshCommand"

/-- The literal placeholder written before the real header value. -/
def placeholderL : Str := ("AUTHORIZATION: basic ***").toList

/-- The fixed, hardcoded host key entry appended to the known-hosts file. -/
def fixedHostKeyEntry : Str :=
  ("github.com ssh-rsa AAAAB3NzaC1yc2EAAAABIwAAAQEAq2A7hRGmdnm9tUDbO9IDSwBK6TbQa+PXYPCPy6rbTrTtw7PHkccKrpp0yVhp5HdEIcKr6pLlVDBfOLX9QUsyCOV0wzfjIJNlGEYsdlLJizHhbn2mUjvSAHQqZETYP81eFzLQNnPHt4EVVUh7VfDESU84KezmD5QlWpXLmvU31/yMf+Se8xhHTvKSCZIFImWwoG6mbUoWf9nzpIoaSjB+weqqUUmpaaasXVal72J+UX2B+2RPW3RcT0eOzQgqlJL3RKrTJvdsjE3JEAvGq3lGHSZXy28G3skua2SmVi/w4yCE6gbODqnTWlg7+wC604ydGXA8VJiS5ap43JXiUFFAaQ==\n").toList

/-- The SSH key file path `path.join(runnerTemp, uniqueId)`. -/
def sshKeyPathOf (e : Env) : String := e.runnerTemp ++ "/" ++ e.uuid

/-- The known-hosts file path `path.join(runnerTemp, uniqueId + '_known_hosts')`. -/
def sshKnownHostsPathOf (e : Env) : String := e.runnerTemp ++ "/" ++ e.uuid ++ "_known_hosts"

/-- The constructed `GIT_SSH_COMMAND` string. -/
def sshCommandOf (e : Env) (st : Settings) : String :=
  "\"" ++ e.sshPath ++ "\" -i " ++ sshKeyPathOf e ++
    (if st.sshStrict then " -o StrictHostKeyChecking=yes -o CheckHostIP=no" else "") ++
    " -o UserKnownHostsFile=" ++ sshKnownHostsPathOf e

/-- The real header value substituted for the placeholder. -/
def authHeaderValue (token : String) : Str :=
  ("AUTHORIZATION: basic ").toList ++ base64OfString ("x-access-token:" ++ token)

/-! ## The auth helper (embedding of the complete auth-helper source file)

Operations return `Sys × Option String`; `some msg` models a thrown error.
Thrown errors do not roll back file mutations already performed. -/

/-- `removeGitConfig(configKey)`: if the key exists and the unset call fails,
warn; if it exists and the unset succeeds, the entry lines are removed;
otherwise the file is untouched. -/
def removeGitConfig (e : Env) (k : String) (s : Sys) : Sys :=
  if configExists k s.config then
    if e.unsetFails k then
      { s with warnings := s.warnings ++ ["Failed to remove '" ++ k ++ "' from the git config"] }
    else { s with config := unsetAll k s.config }
  else s

/-- The file-deletion half of `removeSsh()`: best-effort deletion of the key
file and known-hosts file, preferring the in-memory path and falling back to
the persisted job-state path; a JavaScript falsy test models the
`if (keyPath)` guards.  A key deletion failure warns, a known-hosts deletion
failure is swallowed (the source's intentionally empty catch). -/
def removeSshFiles (e : Env) (s : Sys) : Sys :=
  let keyPath := if s.memSshKeyPath ≠ "" then s.memSshKeyPath else s.stateSshKeyPath
  let s1 :=
    if keyPath = "" then s
    else if e.rmrfFails keyPath then
      { s with warnings := s.warnings ++ ["Failed to remove SSH key '" ++ keyPath ++ "'"] }
    else { s with files := fsRemove s.files keyPath }
  let khPath :=
    if s1.memSshKnownHostsPath ≠ "" then s1.memSshKnownHostsPath else s1.stateSshKnownHostsPath
  if khPath = "" then s1
  else if e.rmrfFails khPath then s1
  else { s1 with files := fsRemove s1.files khPath }

/-- `removeSsh()`: best-effort deletion of the two credential files, then
unset of `core.sshCommand`.  Nothing here can throw. -/
def removeSsh (e : Env) (s : Sys) : Sys :=
  removeGitConfig e sshCommandKey (removeSshFiles e s)

/-- `removeToken()`: unset the extra-header key. -/
def removeToken (e : Env) (s : Sys) : Sys :=
  removeGitConfig e extraHeaderKey s

/-- `removeAuth()`: `removeSsh` then `removeToken`. -/
def removeAuth (e : Env) (s : Sys) : Sys :=
  removeToken e (removeSsh e s)

/-- `configureSsh()`: write the key file under the job temporary directory,
persist both paths into job state, run the two `exec` debug commands, build
the known-hosts file, and install `GIT_SSH_COMMAND` (also into the persisted
config under `core.sshCommand` when credentials are persisted).

The two `exec` invocations are modelled with the standard semantics of the
actions exec package: the command line is recorded and the captured stdout
is appended to the job log; `cat <path>` prints the contents of the file at
`<path>`.  The read of the user's `~/.ssh/known_hosts` is supplied by
`Env.userKnownHosts` (`none` for ENOENT); the source's rethrow of other read
errors is outside this model.  The `if (userKnownHosts)` block of the source
has an empty body (its provenance-bracketing line is commented out), which
the embedding keeps. -/
def configureSsh (e : Env) (st : Settings) (s : Sys) : Sys × Option String :=
  if st.sshKey = "" then (s, none)
  else if e.runnerTemp = "" then (s, some "RUNNER_TEMP is not defined")
  else
    let keyPath := sshKeyPathOf e
    let s1 := { s with memSshKeyPath := keyPath, stateSshKeyPath := keyPath }
    let s2 := { s1 with files := fsWrite s1.files keyPath (st.sshKey.toList ++ ['\n']) }
    let s3 := { s2 with
      execLog := s2.execLog ++ ["ls -la " ++ keyPath, "cat " ++ keyPath],
      outputLog := s2.outputLog ++ [(s2.files keyPath).getD []] }
    let userKnownHosts : Str := (e.userKnownHosts).getD []
    let knownHosts : Str :=
      (if userKnownHosts ≠ [] then ([] : Str) else []) ++ fixedHostKeyEntry
    let khPath := sshKnownHostsPathOf e
    let s4 := { s3 with memSshKnownHostsPath := khPath, stateSshKnownHostsPath := khPath }
    let s5 := { s4 with files := fsWrite s4.files khPath knownHosts }
    let cmd := sshCommandOf e st
    let s6 := { s5 with gitEnv := fun k => if k = "GIT_SSH_COMMAND" then some cmd else s5.gitEnv k }
    if st.persistCredentials then
      ({ s6 with config := gitConfigSet s6.config sshCommandKey cmd.toList }, none)
    else (s6, none)

/-- `configureToken()`: skip when using SSH without persisting credentials;
otherwise write the placeholder entry via `git config`, register the real
credential with the redaction facility, read the raw config contents, fail
unless the placeholder occurs exactly once (`indexOf`/`lastIndexOf` guard),
and replace the single occurrence with the real header value. -/
def configureToken (st : Settings) (s : Sys) : Sys × Option String :=
  if st.sshKey ≠ "" ∧ st.persistCredentials = false then (s, none)
  else
    let s1 := { s with config := gitConfigSet s.config extraHeaderKey placeholderL }
    let basicCredential := base64OfString ("x-access-token:" ++ st.authToken)
    let s2 := { s1 with secrets := s1.secrets ++ [basicCredential] }
    let content := s2.config
    let idx := jsIndexOf placeholderL content
    if idx < 0 ∨ idx ≠ jsLastIndexOf placeholderL content then
      (s2, some "Unable to replace auth placeholder in .git/config")
    else
      ({ s2 with
          config := replaceFirst content placeholderL
            (("AUTHORIZATION: basic ").toList ++ basicCredential) }, none)

/-- The configure half of `configureAuth()`: `configureSsh()` then, unless
the first threw, `configureToken()`. -/
def configurePhase (e : Env) (st : Settings) (s : Sys) : Sys × Option String :=
  match configureSsh e st s with
  | (s3, some m) => (s3, some m)
  | (s3, none) => configureToken st s3

/-- `configureAuth()`: remove possible previous values, then configure new
values. -/
def configureAuth (e : Env) (st : Settings) (s : Sys) : Sys × Option String :=
  let s1 := removeSsh e s
  let s2 := removeToken e s1
  configurePhase e st s2

/-! ## Explicit final states of the configure phase

These definitions give, in closed form, the system state produced by the
configure phase from a state whose configuration file is a clean sequence of
lines; the normal-form lemmas below prove that `configurePhase` produces
exactly these states. -/

/-- The configuration entry lines installed by `configureSsh`. -/
def sshConfigLines (e : Env) (st : Settings) : List Str :=
  if st.sshKey ≠ "" ∧ st.persistCredentials = true then
    [keyLine sshCommandKey (sshCommandOf e st).toList]
  else []

/-- The configuration entry lines installed by `configureToken`. -/
def tokenConfigLines (st : Settings) : List Str :=
  if st.sshKey ≠ "" ∧ st.persistCredentials = false then []
  else [keyLine extraHeaderKey (authHeaderValue st.authToken)]

/-- The state produced by `configureSsh` from `u` (for a nonempty key). -/
def sshFinalSys (e : Env) (st : Settings) (u : Sys) : Sys :=
  { config :=
      if st.persistCredentials then gitConfigSet u.config sshCommandKey (sshCommandOf e st).toList
      else u.config
    files :=
      fsWrite (fsWrite u.files (sshKeyPathOf e) (st.sshKey.toList ++ ['\n']))
        (sshKnownHostsPathOf e) fixedHostKeyEntry
    gitEnv := fun k => if k = "GIT_SSH_COMMAND" then some (sshCommandOf e st) else u.gitEnv k
    stateSshKeyPath := sshKeyPathOf e
    stateSshKnownHostsPath := sshKnownHostsPathOf e
    memSshKeyPath := sshKeyPathOf e
    memSshKnownHostsPath := sshKnownHostsPathOf e
    execLog := u.execLog ++ ["ls -la " ++ sshKeyPathOf e, "cat " ++ sshKeyPathOf e]
    outputLog := u.outputLog ++ [st.sshKey.toList ++ ['\n']]
    secrets := u.secrets
    warnings := u.warnings }

/-- The state produced by the whole configure phase from a state `u` whose
configuration file consists of the clean lines `ls`. -/
def phaseFinalSys (e : Env) (st : Settings) (u : Sys) (ls : List Str) : Sys :=
  { config := joinTerm (ls ++ sshConfigLines e st ++ tokenConfigLines st)
    files :=
      if st.sshKey ≠ "" then
        fsWrite (fsWrite u.files (sshKeyPathOf e) (st.sshKey.toList ++ ['\n']))
          (sshKnownHostsPathOf e) fixedHostKeyEntry
      else u.files
    gitEnv :=
      if st.sshKey ≠ "" then
        fun k => if k = "GIT_SSH_COMMAND" then some (sshCommandOf e st) else u.gitEnv k
      else u.gitEnv
    stateSshKeyPath := if st.sshKey ≠ "" then sshKeyPathOf e else u.stateSshKeyPath
    stateSshKnownHostsPath := if st.sshKey ≠ "" then sshKnownHostsPathOf e else u.stateSshKnownHostsPath
    memSshKeyPath := if st.sshKey ≠ "" then sshKeyPathOf e else u.memSshKeyPath
    memSshKnownHostsPath := if st.sshKey ≠ "" then sshKnownHostsPathOf e else u.memSshKnownHostsPath
    execLog :=
      if st.sshKey ≠ "" then u.execLog ++ ["ls -la " ++ sshKeyPathOf e, "cat " ++ sshKeyPathOf e]
      else u.execLog
    outputLog := if st.sshKey ≠ "" then u.outputLog ++ [st.sshKey.toList ++ ['\n']] else u.outputLog
    secrets :=
      if st.sshKey ≠ "" ∧ st.persistCredentials = false then u.secrets
      else u.secrets ++ [base64OfString ("x-access-token:" ++ st.authToken)]
    warnings := u.warnings }

/-- The credential-relevant projection of the state: the persisted
configuration, the file system, the git process environment, and the four
credential path fields.  Observability sinks (logs, registered secrets,
warnings) are excluded. -/
@[ext]
structure CredView where
  config : Str
  files : String → Option Str
  gitEnv : String → Option String
  stateSshKeyPath : String
  stateSshKnownHostsPath : String
  memSshKeyPath : String
  memSshKnownHostsPath : String

/-- Project the credential-relevant state. -/
def credView (s : Sys) : CredView :=
  { config := s.config, files := s.files, gitEnv := s.gitEnv,
    stateSshKeyPath := s.stateSshKeyPath, stateSshKnownHostsPath := s.stateSshKnownHostsPath,
    memSshKeyPath := s.memSshKeyPath, memSshKnownHostsPath := s.memSshKnownHostsPath }

/-! ## The source provider (embedding of `git-source-provider.ts`)

`getSource` and `prepareExistingDirectory` are embedded as pure functions of
an environment recording the outcomes of the external collaborators (git
command manager creation, fetch/checkout steps, clean/reset attempts), and
they produce an error option together with an ordered trace of the
externally visible events.  The best-effort lock-file removals and the
branch enumeration/deletion of `prepareExistingDirectory` act inside the
`.git` subdirectory or on refs and do not change the set of top-level
directory entries; any throw inside that guarded block is modelled by
`PrepEnv.innerThrows`. -/

inductive PathKind
  | file
  | dir (entries : List String)
  | absent
deriving DecidableEq, Repr

structure PrepEnv where
  dotGitExists : Bool
  fetchUrl : String
  innerThrows : Bool
  tryCleanOk : Bool
  tryResetOk : Bool

structure PrepResult where
  entries : List String
  directoryRemoved : Bool
deriving DecidableEq, Repr

def prepareRemoveDecision (gitPresent : Bool) (e : PrepEnv) (repositoryUrl : String)
    (clean : Bool) : Bool :=
  if ¬gitPresent then true
  else if ¬e.dotGitExists ∨ repositoryUrl ≠ e.fetchUrl then true
  else if e.innerThrows then true
  else if clean then
    if ¬e.tryCleanOk then true
    else if ¬e.tryResetOk then true
    else false
  else false

def prepareExistingDirectory (gitPresent : Bool) (e : PrepEnv) (repositoryUrl : String)
    (clean : Bool) (entries : List String) : PrepResult :=
  if prepareRemoveDecision gitPresent e repositoryUrl clean then
    { entries := [], directoryRemoved := false }
  else { entries := entries, directoryRemoved := false }

inductive GEvent
  | rmConflictingFile
  | mkdirP
  | prepareDir
  | downloadRest
  | gitInit
  | remoteAdd
  | authConfigure
  | authConfigured
  | lfsInstall
  | fetch
  | checkoutInfo
  | lfsFetch
  | checkout
  | log1
  | authRemove
deriving DecidableEq, Repr

structure GSEnv where
  initialPath : PathKind
  gitWorks : Bool
  dotGitExists : Bool
  gcOk : Bool
  prep : PrepEnv
  configureAuthOk : Bool
  lfsInstallOk : Bool
  fetchOk : Bool
  checkoutInfoOk : Bool
  lfsFetchOk : Bool
  checkoutOk : Bool
  log1Ok : Bool
  downloadOk : Bool

structure GSResult where
  err : Option String
  trace : List GEvent
  prepPhasePath : PathKind

def hexDigit (n : Nat) : Char := "0123456789ABCDEF".toList.getD n '0'

def isUnreservedChar (c : Char) : Bool :=
  c.isAlphanum ∨ c ∈ ['-', '_', '.', '!', '~', '*', '\'', '(', ')']

def encodeURIComponent (x : String) : String :=
  String.mk (x.toList.foldr
    (fun c acc =>
      if isUnreservedChar c then c :: acc
      else '%' :: hexDigit (c.toNat / 16 % 16) :: hexDigit (c.toNat % 16) :: acc) [])

def repositoryUrlOf (st : Settings) : String :=
  "https://github.com/" ++ encodeURIComponent st.repositoryOwner ++ "/" ++
    encodeURIComponent st.repositoryName

def sshRepositoryUrlOf (st : Settings) : String :=
  if st.sshKey ≠ "" then
    "ssh://git@github.com/" ++ encodeURIComponent st.repositoryOwner ++ "/" ++
      encodeURIComponent st.repositoryName ++ ".git"
  else ""

def innerSync (st : Settings) (e : GSEnv) : Option String × List GEvent :=
  if ¬e.configureAuthOk then (some "configureAuth failed", [GEvent.authConfigure])
  else
    let evs := [GEvent.authConfigure, GEvent.authConfigured]
    if st.lfs ∧ ¬e.lfsInstallOk then (some "lfsInstall failed", evs ++ [GEvent.lfsInstall])
    else
      let evs := evs ++ (if st.lfs then [GEvent.lfsInstall] else [])
      if ¬e.fetchOk then (some "fetch failed", evs ++ [GEvent.fetch])
      else
        let evs := evs ++ [GEvent.fetch]
        if ¬e.checkoutInfoOk then (some "getCheckoutInfo failed", evs ++ [GEvent.checkoutInfo])
        else
          let evs := evs ++ [GEvent.checkoutInfo]
          if st.lfs ∧ ¬e.lfsFetchOk then (some "lfsFetch failed", evs ++ [GEvent.lfsFetch])
          else
            let evs := evs ++ (if st.lfs then [GEvent.lfsFetch] else [])
            if ¬e.checkoutOk then (some "checkout failed", evs ++ [GEvent.checkout])
            else
              let evs := evs ++ [GEvent.checkout]
              if ¬e.log1Ok then (some "log1 failed", evs ++ [GEvent.log1])
              else (none, evs ++ [GEvent.log1])

def pathInit (e : GSEnv) : PathKind × List GEvent :=
  match e.initialPath with
  | PathKind.file => (PathKind.absent, [GEvent.rmConflictingFile])
  | p => (p, [])

def isExistingDir : PathKind → Bool
  | PathKind.dir _ => true
  | _ => false

def pathCreate (e : GSEnv) : PathKind × List GEvent :=
  let pr1 := pathInit e
  if isExistingDir pr1.1 then pr1 else (PathKind.dir [], pr1.2 ++ [GEvent.mkdirP])

def prePhase (st : Settings) (e : GSEnv) : PathKind × List GEvent :=
  let pr2 := pathCreate e
  if isExistingDir (pathInit e).1 then
    match pr2.1 with
    | PathKind.dir entries =>
      (PathKind.dir (prepareExistingDirectory e.gitWorks e.prep (repositoryUrlOf st)
          st.clean entries).entries,
        pr2.2 ++ [GEvent.prepareDir])
    | p => (p, pr2.2)
  else pr2

def getSource (st : Settings) (e : GSEnv) : GSResult :=
  let pr2 := pathCreate e
  if ¬e.gitWorks ∧ st.lfs then
    { err := some "Git is required for LFS", trace := pr2.2, prepPhasePath := pr2.1 }
  else
    let pr3 := prePhase st e
    if ¬e.gitWorks then
      { err := if e.downloadOk then none else some "downloadRepository failed",
        trace := pr3.2 ++ [GEvent.downloadRest], prepPhasePath := pr3.1 }
    else
      let ev4 := pr3.2 ++ (if ¬e.dotGitExists then [GEvent.gitInit, GEvent.remoteAdd] else [])
      let inner := innerSync st e
      { err := inner.1,
        trace := ev4 ++ inner.2 ++ (if ¬st.persistCredentials then [GEvent.authRemove] else []),
        prepPhasePath := pr3.1 }

/-! ## Concrete fixtures used by closed theorems -/

/-- A benign environment: temp directory present, ssh found, a user
known-hosts file with one entry, no collaborator failures. -/
def envA : Env :=
  { uuid := "u1", runnerTemp := "/tmp/rt", sshPath := "/usr/bin/ssh",
    userKnownHosts := some ("example.com ssh-rsa AAAA").toList,
    unsetFails := fun _ => false, rmrfFails := fun _ => false }

/-- The empty initial system state. -/
def sysEmpty : Sys :=
  { config := [], files := fun _ => none, gitEnv := fun _ => none,
    stateSshKeyPath := "", stateSshKnownHostsPath := "",
    memSshKeyPath := "", memSshKnownHostsPath := "",
    execLog := [], outputLog := [], secrets := [], warnings := [] }

/-- Settings supplying an SSH private key, strict mode off. -/
def settingsSshNoStrict : Settings :=
  { repositoryOwner := "o", repositoryName := "r", repositoryPath := "/w/r",
    ref := "main", commit := "", fetchDepth := 0, clean := true, lfs := false,
    sshKey := "SECRETKEYMATERIAL", sshStrict := false, authToken := "tok",
    persistCredentials := false }

/-- Settings using only the token path (no SSH key). -/
def settingsTokenOnly : Settings :=
  { repositoryOwner := "o", repositoryName := "r", repositoryPath := "/w/r",
    ref := "main", commit := "", fetchDepth := 0, clean := true, lfs := false,
    sshKey := "", sshStrict := false, authToken := "tok",
    persistCredentials := false }

/-- A persisted configuration file holding one stale extra-header entry left
behind by a prior run. -/
def sysStale : Sys :=
  { sysEmpty with
    config := keyLine extraHeaderKey ("AUTHORIZATION: basic xyz").toList ++ ['\n'] }

/-- A benign reconciliation environment whose registered URL matches nothing
used in the fixtures. -/
def prepEnvA : PrepEnv :=
  { dotGitExists := true, fetchUrl := "https://github.com/other/repo",
    innerThrows := false, tryCleanOk := true, tryResetOk := true }

/-- A `getSource` environment: the target path is a regular file, git is
available, the repository is not yet initialized, and the fetch step throws. -/
def genvA : GSEnv :=
  { initialPath := PathKind.file, gitWorks := true, dotGitExists := false, gcOk := true,
    prep := prepEnvA, configureAuthOk := true, lfsInstallOk := true, fetchOk := false,
    checkoutInfoOk := true, lfsFetchOk := true, checkoutOk := true, log1Ok := true,
    downloadOk := true }

/-- Settings with an SSH key, strict mode and persisted credentials. -/
def settingsSshPersist : Settings :=
  { repositoryOwner := "o", repositoryName := "r", repositoryPath := "/w/r",
    ref := "main", commit := "", fetchDepth := 0, clean := true, lfs := false,
    sshKey := "KEY", sshStrict := true, authToken := "tok",
    persistCredentials := true }

/-- A second benign environment with a fresh uuid. -/
def envB : Env :=
  { uuid := "u2", runnerTemp := "/tmp/rt", sshPath := "/usr/bin/ssh",
    userKnownHosts := none,
    unsetFails := fun _ => false, rmrfFails := fun _ => false }

/-! ## General lemmas about occurrence positions -/

theorem mem_matchPos (pat : Str) (hpat : pat ≠ []) :
    ∀ (s : Str) (i : Nat), i ∈ matchPos pat s ↔ pat.isPrefixOf (s.drop i)
  | [], i => by
    simp only [matchPos, List.isPrefixOf_iff_prefix]
    rcases pat with _ | ⟨c, p⟩
    · exact absurd rfl hpat
    · simp [List.drop_nil]
  | c :: rest, i => by
    simp only [matchPos]
    cases i with
    | zero =>
      simp only [List.mem_append, List.mem_map]
      constructor
      · rintro (h | ⟨j, _, hj⟩)
        · by_cases hp : pat.isPrefixOf (c :: rest)
          · simpa using hp
          · simp [hp] at h
        · omega
      · intro h
        left
        simp [List.drop] at h
        simp [h]
    | succ j =>
      simp only [List.mem_append, List.mem_map]
      constructor
      · rintro (h | ⟨k, hk, hkj⟩)
        · by_cases hp : pat.isPrefixOf (c :: rest) <;> simp [hp] at h
        · have hkj2 : k = j := by omega
          simpa [List.drop, hkj2] using (mem_matchPos pat hpat rest k).mp hk
      · intro h
        right
        exact ⟨j, (mem_matchPos pat hpat rest j).mpr (by simpa [List.drop] using h), rfl⟩

theorem matchPos_sorted (pat : Str) : ∀ (s : Str), (matchPos pat s).Pairwise (· < ·)
  | [] => by
    simp only [matchPos]
    split <;> simp
  | c :: rest => by
    simp only [matchPos]
    have ih : ((matchPos pat rest).map (· + 1)).Pairwise (· < ·) := by
      rw [List.pairwise_map]
      exact (matchPos_sorted pat rest).imp (by omega)
    split
    · refine List.pairwise_append.mpr ⟨by simp, ih, ?_⟩
      intro a ha b hb
      simp at ha
      subst ha
      rcases List.mem_map.mp hb with ⟨j, _, rfl⟩
      omega
    · simpa using ih

theorem pairwise_singleton_iff {l : List Nat} (h : l.Pairwise (· < ·)) :
    l.length = 1 ↔ l ≠ [] ∧ l.head? = l.getLast? := by
  constructor
  · intro hl
    rcases l with _ | ⟨a, _ | ⟨b, t⟩⟩ <;> simp_all
  · rintro ⟨hne, hhl⟩
    rcases l with _ | ⟨a, t⟩
    · exact absurd rfl hne
    · rcases t with _ | ⟨b, t'⟩
      · rfl
      · exfalso
        have hmem : (b :: t').getLast (by simp) ∈ b :: t' := List.getLast_mem _
        have hlt : a < (b :: t').getLast (by simp) :=
          (List.pairwise_cons.mp h).1 _ hmem
        have : (a :: b :: t').getLast? = some ((b :: t').getLast (by simp)) := by
          rw [List.getLast?_cons_cons]
          exact (List.getLast?_eq_getLast _ (by simp))
        rw [this] at hhl
        simp at hhl
        omega

theorem count_one_iff (pat s : Str) :
    countOcc pat s = 1 ↔
      ¬(jsIndexOf pat s < 0 ∨ jsIndexOf pat s ≠ jsLastIndexOf pat s) := by
  rw [countOcc, pairwise_singleton_iff (matchPos_sorted pat s)]
  rcases hm : matchPos pat s with _ | ⟨i, t⟩
  · simp [jsIndexOf, jsLastIndexOf, hm]
  · simp only [jsIndexOf, jsLastIndexOf, hm, ne_eq, List.head?_cons]
    rcases hl : (i :: t).getLast? with _ | j
    · simp at hl
    · simp only [hl]
      constructor
      · rintro ⟨-, h⟩
        simp only [Option.some.injEq] at h
        subst h
        push_neg
        exact ⟨by positivity, rfl⟩
      · intro h
        push_neg at h
        refine ⟨by simp, ?_⟩
        have : (i : Int) = (j : Int) := h.2
        simp at this
        simp [this]

/-! ## Lemmas about occurrence counts, line structure and config entries -/

theorem prefix_of_append_of_le {pat u : Str} (v : Str) (h : pat <+: u ++ v)
    (hle : pat.length ≤ u.length) : pat <+: u := by
  have hp := List.prefix_iff_eq_take.mp h
  have h2 : pat = u.take pat.length := by
    conv_lhs => rw [hp]
    rw [List.take_append_eq_append_take, Nat.sub_eq_zero_of_le hle, List.take_zero,
      List.append_nil]
  rw [h2]
  exact List.take_prefix _ _

theorem head_eq_of_prefix {pat t : Str} (h : pat <+: t) (hne : pat ≠ []) :
    pat.head? = t.head? := by
  rcases h with ⟨r, rfl⟩
  rcases pat with _ | ⟨c, p⟩
  · exact absurd rfl hne
  · rfl

theorem prefix_cross_nl {pat : Str} (hnl : '\n' ∉ pat)
    (u w : Str) : pat <+: u ++ '\n' :: w ↔ pat <+: u := by
  constructor
  · intro h
    by_cases hle : pat.length ≤ u.length
    · exact prefix_of_append_of_le _ h hle
    · exfalso
      push_neg at hle
      have hp := List.prefix_iff_eq_take.mp h
      have h2 : pat = u ++ '\n' :: w.take (pat.length - u.length - 1) := by
        conv_lhs => rw [hp]
        rw [List.take_append_eq_append_take, List.take_of_length_le (Nat.le_of_lt hle)]
        congr 1
        rcases hk : pat.length - u.length with _ | k
        · omega
        · simp [List.take_succ_cons]
      exact hnl (h2 ▸ by simp)
  · intro h
    exact h.trans (List.prefix_append u ('\n' :: w))

theorem countOcc_nil {pat : Str} (hne : pat ≠ []) : countOcc pat [] = 0 := by
  simp [countOcc, matchPos, List.isPrefixOf_iff_prefix, hne]

theorem countOcc_cons (pat : Str) (c : Char) (s : Str) :
    countOcc pat (c :: s) = (if pat <+: c :: s then 1 else 0) + countOcc pat s := by
  simp only [countOcc, matchPos, List.isPrefixOf_iff_prefix, List.length_append,
    List.length_map]
  split <;> simp

theorem countOcc_cross_nl {pat : Str} (hne : pat ≠ []) (hnl : '\n' ∉ pat) :
    ∀ (u w : Str), countOcc pat (u ++ '\n' :: w) = countOcc pat u + countOcc pat w
  | [], w => by
    rw [List.nil_append, countOcc_cons, countOcc_nil hne]
    have hnp : ¬ pat <+: '\n' :: w := by
      intro h
      have := head_eq_of_prefix h hne
      rcases pat with _ | ⟨c, p⟩
      · exact hne rfl
      · simp at this
        subst this
        exact hnl (by simp)
    simp [hnp]
  | c :: u, w => by
    have hstep := countOcc_cross_nl hne hnl u w
    rw [List.cons_append, countOcc_cons, hstep, countOcc_cons]
    have heq : (pat <+: c :: (u ++ '\n' :: w)) ↔ (pat <+: c :: u) := by
      have := prefix_cross_nl hnl (c :: u) w
      simpa using this
    by_cases hp : pat <+: c :: u
    · rw [if_pos (heq.mpr hp), if_pos hp]
      omega
    · rw [if_neg (fun hh => hp (heq.mp hh)), if_neg hp]
      omega

theorem countOcc_joinTerm_append {pat : Str} (hne : pat ≠ []) (hnl : '\n' ∉ pat) :
    ∀ (ls : List Str) (b : Str),
      countOcc pat (joinTerm ls ++ b) = (ls.map (countOcc pat)).sum + countOcc pat b
  | [], b => by simp [joinTerm]
  | l :: ls, b => by
    have ih := countOcc_joinTerm_append hne hnl ls b
    rw [joinTerm]
    rw [List.append_assoc, List.cons_append]
    rw [countOcc_cross_nl hne hnl l (joinTerm ls ++ b), ih]
    simp
    omega

theorem countOcc_joinTerm {pat : Str} (hne : pat ≠ []) (hnl : '\n' ∉ pat) (ls : List Str) :
    countOcc pat (joinTerm ls) = (ls.map (countOcc pat)).sum := by
  have := countOcc_joinTerm_append hne hnl ls []
  simpa [countOcc_nil hne] using this

theorem splitNL_append_nl {l : Str} (hnl : '\n' ∉ l) (r : Str) :
    splitNL (l ++ '\n' :: r) = l :: splitNL r := by
  induction l with
  | nil => simp [splitNL]
  | cons c l ih =>
    have hc : c ≠ '\n' := fun hh => hnl (hh ▸ List.mem_cons_self c l)
    have hl : '\n' ∉ l := fun hh => hnl (List.mem_cons_of_mem c hh)
    rw [List.cons_append, splitNL]
    rw [if_neg hc, ih hl]

theorem splitNL_joinTerm {ls : List Str} (hfree : ∀ l ∈ ls, '\n' ∉ l) :
    splitNL (joinTerm ls) = ls ++ [[]] := by
  induction ls with
  | nil => simp [joinTerm, splitNL]
  | cons l ls ih =>
    rw [joinTerm, splitNL_append_nl (hfree l (List.mem_cons_self l ls)),
      ih (fun x hx => hfree x (List.mem_cons_of_mem l hx))]
    rfl

theorem configLines_joinTerm {ls : List Str} (hfree : ∀ l ∈ ls, '\n' ∉ l) :
    configLines (joinTerm ls) = ls := by
  rw [configLines, splitNL_joinTerm hfree]
  exact List.dropLast_concat ..

theorem configExists_joinTerm {ls : List Str} (hfree : ∀ l ∈ ls, '\n' ∉ l) (k : String) :
    configExists k (joinTerm ls) = ls.any (isKeyLine k) := by
  rw [configExists, configLines_joinTerm hfree]

theorem unsetAll_joinTerm {ls : List Str} (hfree : ∀ l ∈ ls, '\n' ∉ l) (k : String) :
    unsetAll k (joinTerm ls) = joinTerm (ls.filter (fun l => ! isKeyLine k l)) := by
  rw [unsetAll, configLines_joinTerm hfree]

theorem joinTerm_append (xs ys : List Str) :
    joinTerm (xs ++ ys) = joinTerm xs ++ joinTerm ys := by
  induction xs with
  | nil => simp [joinTerm]
  | cons l xs ih => simp [joinTerm, ih]

theorem isKeyLine_keyLine (k : String) (v : Str) : isKeyLine k (keyLine k v) = true := by
  rw [isKeyLine, keyLine, List.isPrefixOf_iff_prefix]
  exact List.prefix_append _ _

theorem not_isKeyLine_of_head_ne {k1 k2 : String} (v : Str)
    (hne : ((k1 ++ " = ").toList).head? ≠ ((k2 ++ " = ").toList).head?)
    (h2 : (k2 ++ " = ").toList ≠ []) :
    isKeyLine k1 (keyLine k2 v) = false := by
  rw [isKeyLine, keyLine]
  by_contra hcon
  simp only [Bool.not_eq_false, List.isPrefixOf_iff_prefix] at hcon
  have hne1 : (k1 ++ " = ").toList ≠ [] := by
    intro hh
    rw [hh] at hcon
    exact hne (by simp [hh] at hne ⊢; rcases hx : (k2 ++ " = ").toList with _ | _ <;> simp_all)
  have := head_eq_of_prefix hcon hne1
  rcases hx : (k2 ++ " = ").toList with _ | ⟨c2, r2⟩
  · exact h2 hx
  · rw [hx] at this
    simp at this
    rw [hx] at hne
    simp [this] at hne

theorem matchPos_singleton {pat s : Str} (hne : pat ≠ []) {i : Nat}
    (hcount : countOcc pat s = 1) (hocc : pat <+: s.drop i) :
    matchPos pat s = [i] := by
  rcases List.length_eq_one.mp hcount with ⟨j, hj⟩
  have hmem : i ∈ matchPos pat s :=
    (mem_matchPos pat hne s i).mpr (List.isPrefixOf_iff_prefix.mpr hocc)
  rw [hj] at hmem
  simp at hmem
  rw [hj, hmem]

theorem countOcc_eq_zero_of_char {pat s : Str} {c : Char} (hc : c ∈ pat) (hs : c ∉ s) :
    countOcc pat s = 0 := by
  have hne : pat ≠ [] := fun hh => by simp [hh] at hc
  by_contra hcon
  have : matchPos pat s ≠ [] := fun hh => hcon (by simp [countOcc, hh])
  rcases List.exists_mem_of_ne_nil _ this with ⟨i, hi⟩
  have hpre := (mem_matchPos pat hne s i).mp hi
  rw [List.isPrefixOf_iff_prefix] at hpre
  exact hs (List.mem_of_mem_drop (hpre.subset hc))

/-! ## Helper lemmas about the source-provider traces -/

theorem mem_innerSync (st : Settings) (e : GSEnv) (ev : GEvent)
    (h : ev ∈ (innerSync st e).2) :
    ev ∈ [GEvent.authConfigure, GEvent.authConfigured, GEvent.lfsInstall, GEvent.fetch,
      GEvent.checkoutInfo, GEvent.lfsFetch, GEvent.checkout, GEvent.log1] := by
  unfold innerSync at h
  split_ifs at h <;> simp_all <;> tauto

theorem mem_pathCreate (e : GSEnv) (ev : GEvent) (h : ev ∈ (pathCreate e).2) :
    ev = GEvent.rmConflictingFile ∨ ev = GEvent.mkdirP := by
  cases hip : e.initialPath
  · simp [pathCreate, pathInit, hip, isExistingDir] at h
    tauto
  · simp [pathCreate, pathInit, hip, isExistingDir] at h
  · simp [pathCreate, pathInit, hip, isExistingDir] at h
    tauto

theorem mem_prePhase (st : Settings) (e : GSEnv) (ev : GEvent) (h : ev ∈ (prePhase st e).2) :
    ev = GEvent.rmConflictingFile ∨ ev = GEvent.mkdirP ∨ ev = GEvent.prepareDir := by
  by_cases hex : isExistingDir (pathInit e).1
  · rcases hm : (pathCreate e).1 with _ | entries
    · simp only [prePhase, if_pos hex, hm] at h
      rcases mem_pathCreate e ev h with h2 | h2 <;> simp [h2]
    · simp only [prePhase, if_pos hex, hm, List.mem_append, List.mem_singleton] at h
      rcases h with h | h
      · rcases mem_pathCreate e ev h with h2 | h2 <;> simp [h2]
      · simp [h]
    · simp only [prePhase, if_pos hex, hm] at h
      rcases mem_pathCreate e ev h with h2 | h2 <;> simp [h2]
  · simp only [prePhase, if_neg hex] at h
    rcases mem_pathCreate e ev h with h2 | h2 <;> simp [h2]

theorem getSource_trace_git (st : Settings) (e : GSEnv) (hg : e.gitWorks = true) :
    (getSource st e).trace =
      (prePhase st e).2 ++
        ((if ¬e.dotGitExists then [GEvent.gitInit, GEvent.remoteAdd] else []) ++
          ((innerSync st e).2 ++
            (if ¬st.persistCredentials then [GEvent.authRemove] else []))) := by
  simp [getSource, hg, List.append_assoc]

theorem getSource_trace_lfs_fatal (st : Settings) (e : GSEnv) (hg : e.gitWorks = false)
    (hl : st.lfs = true) :
    (getSource st e).trace = (pathCreate e).2 := by
  simp [getSource, hg, hl]

theorem getSource_trace_rest (st : Settings) (e : GSEnv) (hg : e.gitWorks = false)
    (hl : st.lfs = false) :
    (getSource st e).trace = (prePhase st e).2 ++ [GEvent.downloadRest] := by
  simp [getSource, hg, hl]

theorem prepareRemoveDecision_true (g : Bool) (e : PrepEnv) (url : String) (clean : Bool)
    (h : e.dotGitExists = false ∨ e.fetchUrl ≠ url) :
    prepareRemoveDecision g e url clean = true := by
  have hcond : (¬e.dotGitExists = true ∨ url ≠ e.fetchUrl) := by
    rcases h with h | h
    · left; simp [h]
    · right; exact fun hh => h hh.symm
  rcases g with _ | _
  · rfl
  · unfold prepareRemoveDecision
    rw [if_neg (by simp : ¬¬((true : Bool) = true))]
    rw [if_pos hcond]

/-! ## Claim theorems -/

/-! ### C1, C5: the SSH configuration path on concrete inputs -/

/-- C1: refuted by the code.  Claim: with an SSH key supplied, no operation
writes the secret key material to any sink other than the single key file
under the job temporary directory, and `configureAuth` never passes the key
or its file contents to process invocations or captured logs.  In the code,
`configureSsh` runs `exec('ls -la <keyPath>')` and `exec('cat <keyPath>')`
right after writing the key file: the `cat` invocation streams the private
key material into the captured job log.  This theorem evaluates the code on
a concrete settings: the run succeeds, the key file holds the secret, the
`cat` command is passed to `exec`, and the very key material (`sshKey`
followed by the appended newline) appears in the captured output log. -/
theorem c1_ssh_key_leaked_to_captured_output :
    (configureSsh envA settingsSshNoStrict sysEmpty).2 = none ∧
    (configureSsh envA settingsSshNoStrict sysEmpty).1.files (sshKeyPathOf envA)
      = some (("SECRETKEYMATERIAL\n").toList) ∧
    ("cat /tmp/rt/u1") ∈ (configureSsh envA settingsSshNoStrict sysEmpty).1.execLog ∧
    (("SECRETKEYMATERIAL\n").toList) ∈ (configureSsh envA settingsSshNoStrict sysEmpty).1.outputLog := by
  refine ⟨rfl, by set_option maxRecDepth 10000 in decide,
    by set_option maxRecDepth 10000 in decide, ?_⟩
  set_option maxRecDepth 10000 in decide

/-- C5: refuted by the code.  Claim: with an SSH key supplied and an
existing user known-hosts file, the built known-hosts file contains the
user's entries bracketed by provenance comments, followed by the fixed
hardcoded host key entry.  In the code the bracketing line inside
`if (userKnownHosts) { ... }` is commented out, so the user's entries are
read and then dropped.  On a concrete input whose user known-hosts file
holds the entry `example.com ssh-rsa AAAA`, the written known-hosts file is
exactly the fixed hardcoded entry: the user's entry does not occur in it and
it contains no comment character at all. -/
theorem c5_user_known_hosts_dropped :
    (configureSsh envA settingsSshNoStrict sysEmpty).2 = none ∧
    (configureSsh envA settingsSshNoStrict sysEmpty).1.files (sshKnownHostsPathOf envA)
      = some fixedHostKeyEntry ∧
    countOcc (("example.com").toList) fixedHostKeyEntry = 0 ∧
    '#' ∉ fixedHostKeyEntry := by
  refine ⟨rfl, by set_option maxRecDepth 10000 in rfl, ?_, ?_⟩
  · set_option maxRecDepth 40000 in decide
  · set_option maxRecDepth 10000 in decide

/-! ## C4: the round-trip claim fails on stale initial contents -/

/-- C4, counterexample.  The claim quantifies over every initial persisted
configuration file content.  Starting from a file holding one stale
extra-header entry (as a prior persisting run leaves behind),
`configureAuth()` succeeds, but `configureAuth()` followed immediately by
`removeAuth()` ends with the stale entry gone: the final file is not
byte-identical to the initial one. -/
theorem c4_round_trip_fails_on_stale_entry :
    (configureAuth envA settingsTokenOnly sysStale).2 = none ∧
    (removeAuth envA (configureAuth envA settingsTokenOnly sysStale).1).config
      ≠ sysStale.config := by
  constructor
  · set_option maxRecDepth 100000 in decide
  · set_option maxRecDepth 100000 in decide

/-! ## C7: content of the constructed SSH command -/

/-- C7, counterexample.  The claim states that when `sshStrict` is off,
host-key checking and IP checking are disabled in the constructed SSH
command.  On a concrete run with `sshStrict = false` the installed
`GIT_SSH_COMMAND` is exactly the base command: it contains no
`StrictHostKeyChecking` option and no `CheckHostIP` option at all, so the
command disables neither check (the code adds
`-o StrictHostKeyChecking=yes -o CheckHostIP=no` only when `sshStrict` is
on). -/
theorem c7_no_disabling_flags_when_strict_off :
    (configureSsh envA settingsSshNoStrict sysEmpty).2 = none ∧
    (configureSsh envA settingsSshNoStrict sysEmpty).1.gitEnv "GIT_SSH_COMMAND"
      = some "\"/usr/bin/ssh\" -i /tmp/rt/u1 -o UserKnownHostsFile=/tmp/rt/u1_known_hosts" ∧
    countOcc (("StrictHostKeyChecking").toList)
      ("\"/usr/bin/ssh\" -i /tmp/rt/u1 -o UserKnownHostsFile=/tmp/rt/u1_known_hosts").toList = 0 ∧
    countOcc (("CheckHostIP").toList)
      ("\"/usr/bin/ssh\" -i /tmp/rt/u1 -o UserKnownHostsFile=/tmp/rt/u1_known_hosts").toList = 0 := by
  refine ⟨rfl, by set_option maxRecDepth 10000 in decide, ?_, ?_⟩
  · set_option maxRecDepth 40000 in decide
  · set_option maxRecDepth 40000 in decide

/-- C2: confirmed.  In `getSource`, for every settings and every combination
of collaborator outcomes (fetch or checkout may succeed or throw): when
`persistCredentials` is false, every execution that reaches the
auth-configured state ends by invoking `removeAuth` (the event trace ends
with the removal event, whether the run returns success or propagates an
error); when `persistCredentials` is true, `removeAuth` is never invoked on
any path. -/
theorem c2_auth_removed_on_every_exit (st : Settings) (e : GSEnv) :
    (st.persistCredentials = false → GEvent.authConfigured ∈ (getSource st e).trace →
      ∃ pre, (getSource st e).trace = pre ++ [GEvent.authRemove]) ∧
    (st.persistCredentials = true → GEvent.authRemove ∉ (getSource st e).trace) := by
  constructor
  · intro hp hmem
    by_cases hg : e.gitWorks
    · refine ⟨(prePhase st e).2 ++
        ((if ¬e.dotGitExists then [GEvent.gitInit, GEvent.remoteAdd] else []) ++
          (innerSync st e).2), ?_⟩
      rw [getSource_trace_git st e hg]
      simp [hp, List.append_assoc]
    · exfalso
      by_cases hl : st.lfs
      · rw [getSource_trace_lfs_fatal st e (by simpa using hg) hl] at hmem
        rcases mem_pathCreate e _ hmem with h | h <;> simp at h
      · rw [getSource_trace_rest st e (by simpa using hg) (by simpa using hl)] at hmem
        simp only [List.mem_append, List.mem_singleton] at hmem
        rcases hmem with h | h
        · rcases mem_prePhase st e _ h with h2 | h2 | h2 <;> simp at h2
        · simp at h
  · intro hp hmem
    by_cases hg : e.gitWorks
    · rw [getSource_trace_git st e hg] at hmem
      simp only [hp, List.mem_append] at hmem
      rcases hmem with h | h | h | h
      · rcases mem_prePhase st e _ h with h2 | h2 | h2 <;> simp at h2
      · split_ifs at h <;> simp_all
      · have := mem_innerSync st e _ h
        simp at this
      · simp at h
    · by_cases hl : st.lfs
      · rw [getSource_trace_lfs_fatal st e (by simpa using hg) hl] at hmem
        rcases mem_pathCreate e _ hmem with h | h <;> simp at h
      · rw [getSource_trace_rest st e (by simpa using hg) (by simpa using hl)] at hmem
        simp only [List.mem_append, List.mem_singleton] at hmem
        rcases hmem with h | h
        · rcases mem_prePhase st e _ h with h2 | h2 | h2 <;> simp at h2
        · simp at h

/-- C3: confirmed.  On the token path, `configureToken` first installs the
placeholder entry and then reads the persisted configuration file: when the
placeholder does not occur exactly once in the read contents it throws
`Unable to replace auth placeholder in .git/config` and leaves the file
without the secret (the placeholder entry stays, the real header value is
never written); when the placeholder occurs exactly once it replaces that
single occurrence with the real header value and writes the file back.  The
code's `indexOf`/`lastIndexOf` guard is proved equivalent to the
exactly-once condition. -/
theorem c3_token_placeholder_exactly_once (st : Settings) (s : Sys)
    (hskip : ¬(st.sshKey ≠ "" ∧ st.persistCredentials = false)) :
    (countOcc placeholderL (gitConfigSet s.config extraHeaderKey placeholderL) ≠ 1 →
      configureToken st s =
        ({ s with
            config := gitConfigSet s.config extraHeaderKey placeholderL,
            secrets := s.secrets ++ [base64OfString ("x-access-token:" ++ st.authToken)] },
          some "Unable to replace auth placeholder in .git/config")) ∧
    (countOcc placeholderL (gitConfigSet s.config extraHeaderKey placeholderL) = 1 →
      ∃ i, placeholderL.isPrefixOf
            ((gitConfigSet s.config extraHeaderKey placeholderL).drop i) ∧
        configureToken st s =
          ({ s with
              config :=
                (gitConfigSet s.config extraHeaderKey placeholderL).take i ++
                  authHeaderValue st.authToken ++
                  (gitConfigSet s.config extraHeaderKey placeholderL).drop
                    (i + placeholderL.length),
              secrets := s.secrets ++ [base64OfString ("x-access-token:" ++ st.authToken)] },
            none)) := by
  constructor
  · intro hc
    have hguard : jsIndexOf placeholderL (gitConfigSet s.config extraHeaderKey placeholderL) < 0 ∨
        jsIndexOf placeholderL (gitConfigSet s.config extraHeaderKey placeholderL) ≠
          jsLastIndexOf placeholderL (gitConfigSet s.config extraHeaderKey placeholderL) := by
      by_contra hng
      exact hc ((count_one_iff _ _).mpr hng)
    simp only [configureToken, if_neg hskip, if_pos hguard]
  · intro hc
    have hone : (matchPos placeholderL (gitConfigSet s.config extraHeaderKey placeholderL)).length = 1 := hc
    rcases List.length_eq_one.mp hone with ⟨i, hi⟩
    refine ⟨i, ?_, ?_⟩
    · exact (mem_matchPos placeholderL (by decide) _ i).mp (by simp [hi])
    · have hguard : ¬(jsIndexOf placeholderL (gitConfigSet s.config extraHeaderKey placeholderL) < 0 ∨
          jsIndexOf placeholderL (gitConfigSet s.config extraHeaderKey placeholderL) ≠
            jsLastIndexOf placeholderL (gitConfigSet s.config extraHeaderKey placeholderL)) :=
        (count_one_iff _ _).mp hc
      simp only [configureToken, if_neg hskip, if_neg hguard, replaceFirst, hi]
      rfl

/-- Witness for C3 at a concrete input: empty initial config, token-only
settings; the hypotheses hold and the success case applies. -/
theorem c3_token_placeholder_exactly_once_witness :
    (¬(settingsTokenOnly.sshKey ≠ "" ∧ settingsTokenOnly.persistCredentials = false)) ∧
    countOcc placeholderL (gitConfigSet sysEmpty.config extraHeaderKey placeholderL) = 1 ∧
    (∃ i, placeholderL.isPrefixOf
          ((gitConfigSet sysEmpty.config extraHeaderKey placeholderL).drop i) ∧
      configureToken settingsTokenOnly sysEmpty =
        ({ sysEmpty with
            config :=
              (gitConfigSet sysEmpty.config extraHeaderKey placeholderL).take i ++
                authHeaderValue settingsTokenOnly.authToken ++
                (gitConfigSet sysEmpty.config extraHeaderKey placeholderL).drop
                  (i + placeholderL.length),
            secrets := sysEmpty.secrets ++
              [base64OfString ("x-access-token:" ++ settingsTokenOnly.authToken)] },
          none)) := by
  refine ⟨by decide, by set_option maxRecDepth 40000 in decide, ?_⟩
  exact (c3_token_placeholder_exactly_once settingsTokenOnly sysEmpty (by decide)).2
    (by set_option maxRecDepth 40000 in decide)

/-- C6: confirmed.  For every prior working directory that lacks the `.git`
metadata subdirectory or whose registered remote origin URL differs from
the expected repository URL, `prepareExistingDirectory` ends with every
entry inside the directory deleted while the directory itself still exists
(the deletion loop removes the entries; the directory is never removed). -/
theorem c6_discard_empties_directory_but_keeps_it (g : Bool) (e : PrepEnv) (url : String) (clean : Bool)
    (entries : List String)
    (h : e.dotGitExists = false ∨ e.fetchUrl ≠ url) :
    prepareExistingDirectory g e url clean entries
      = { entries := [], directoryRemoved := false } := by
  unfold prepareExistingDirectory
  rw [prepareRemoveDecision_true g e url clean h]
  rfl

/-- C10: confirmed.  When the target repository path exists as a regular
file, `getSource` deletes that file and creates a fresh empty directory at
the path (the trace begins with the removal of the conflicting file followed
by `mkdirP`), and the existing-directory reconciliation is never invoked. -/
theorem c10_conflicting_file_replaced_by_fresh_dir (st : Settings) (e : GSEnv) (hfile : e.initialPath = PathKind.file) :
    (getSource st e).prepPhasePath = PathKind.dir [] ∧
    GEvent.prepareDir ∉ (getSource st e).trace ∧
    [GEvent.rmConflictingFile, GEvent.mkdirP] <+: (getSource st e).trace := by
  have hpc : pathCreate e = (PathKind.dir [], [GEvent.rmConflictingFile, GEvent.mkdirP]) := by
    simp [pathCreate, pathInit, hfile, isExistingDir]
  have hex : isExistingDir (pathInit e).1 = false := by
    simp [pathInit, hfile, isExistingDir]
  have hpp : prePhase st e = (PathKind.dir [], [GEvent.rmConflictingFile, GEvent.mkdirP]) := by
    simp [prePhase, hex, hpc]
  by_cases hg : e.gitWorks
  · refine ⟨?_, ?_, ?_⟩
    · simp [getSource, hg, hpp]
    · rw [getSource_trace_git st e hg]
      simp only [hpp, List.mem_append]
      rintro (h | h | h | h)
      · simp at h
      · split_ifs at h <;> simp_all
      · have := mem_innerSync st e _ h
        simp at this
      · split_ifs at h <;> simp_all
    · rw [getSource_trace_git st e hg]
      rw [hpp]
      exact List.prefix_append _ _
  · by_cases hl : st.lfs
    · refine ⟨?_, ?_, ?_⟩
      · simp [getSource, hg, hl, hpc]
      · rw [getSource_trace_lfs_fatal st e (by simpa using hg) hl, hpc]
        simp
      · rw [getSource_trace_lfs_fatal st e (by simpa using hg) hl, hpc]
    · refine ⟨?_, ?_, ?_⟩
      · simp [getSource, hg, hl, hpp]
      · rw [getSource_trace_rest st e (by simpa using hg) (by simpa using hl), hpp]
        simp
      · rw [getSource_trace_rest st e (by simpa using hg) (by simpa using hl), hpp]
        exact List.prefix_append _ _

/-- Witness for C2 at a concrete input: credentials not persisted, the fetch
step throws, and the trace still ends with the removal event. -/
theorem c2_auth_removed_on_every_exit_witness :
    settingsTokenOnly.persistCredentials = false ∧
    GEvent.authConfigured ∈ (getSource settingsTokenOnly genvA).trace ∧
    (∃ pre, (getSource settingsTokenOnly genvA).trace = pre ++ [GEvent.authRemove]) :=
  ⟨rfl, by decide, (c2_auth_removed_on_every_exit settingsTokenOnly genvA).1 rfl (by decide)⟩

/-- Witness for C6 at a concrete input: the registered URL differs from the
expected one, so the reconciliation empties the directory and keeps it. -/
theorem c6_discard_empties_directory_but_keeps_it_witness :
    (prepEnvA.dotGitExists = false ∨ prepEnvA.fetchUrl ≠ "https://github.com/a/b") ∧
    prepareExistingDirectory true prepEnvA "https://github.com/a/b" true [".git", "f1"]
      = { entries := [], directoryRemoved := false } :=
  ⟨by decide,
    c6_discard_empties_directory_but_keeps_it true prepEnvA "https://github.com/a/b" true
      [".git", "f1"] (by decide)⟩

/-- Witness for C10 at a concrete input whose target path is a regular file. -/
theorem c10_conflicting_file_replaced_by_fresh_dir_witness :
    genvA.initialPath = PathKind.file ∧
    ((getSource settingsTokenOnly genvA).prepPhasePath = PathKind.dir [] ∧
      GEvent.prepareDir ∉ (getSource settingsTokenOnly genvA).trace ∧
      [GEvent.rmConflictingFile, GEvent.mkdirP] <+: (getSource settingsTokenOnly genvA).trace) :=
  ⟨rfl, c10_conflicting_file_replaced_by_fresh_dir settingsTokenOnly genvA rfl⟩

/-! ## Normal forms of the configure phase, removal lemmas, and the
remaining claims -/

theorem configureToken_success (st : Settings) (s : Sys)
    (hsk : ¬(st.sshKey ≠ "" ∧ st.persistCredentials = false))
    (hcount : countOcc placeholderL (gitConfigSet s.config extraHeaderKey placeholderL) = 1)
    {i : Nat} (hocc : placeholderL <+: (gitConfigSet s.config extraHeaderKey placeholderL).drop i) :
    configureToken st s =
      ({ s with
          config :=
            (gitConfigSet s.config extraHeaderKey placeholderL).take i ++
              authHeaderValue st.authToken ++
              (gitConfigSet s.config extraHeaderKey placeholderL).drop (i + placeholderL.length),
          secrets := s.secrets ++ [base64OfString ("x-access-token:" ++ st.authToken)] },
        none) := by
  have hm := matchPos_singleton (by decide) hcount hocc
  have hguard : ¬(jsIndexOf placeholderL (gitConfigSet s.config extraHeaderKey placeholderL) < 0 ∨
      jsIndexOf placeholderL (gitConfigSet s.config extraHeaderKey placeholderL) ≠
        jsLastIndexOf placeholderL (gitConfigSet s.config extraHeaderKey placeholderL)) :=
    (count_one_iff _ _).mp hcount
  simp only [configureToken, if_neg hsk, if_neg hguard, replaceFirst, hm]
  rfl

theorem configureToken_clean (st : Settings) (u : Sys) (ls : List Str)
    (hcfg : u.config = joinTerm ls)
    (hocc : ∀ l ∈ ls, countOcc placeholderL l = 0)
    (htk : ¬(st.sshKey ≠ "" ∧ st.persistCredentials = false)) :
    configureToken st u =
      ({ u with
          config := joinTerm (ls ++ [keyLine extraHeaderKey (authHeaderValue st.authToken)]),
          secrets := u.secrets ++ [base64OfString ("x-access-token:" ++ st.authToken)] },
        none) := by
  have hplne : placeholderL ≠ [] := by decide
  have hplnl : '\n' ∉ placeholderL := by decide
  have hcontent : gitConfigSet u.config extraHeaderKey placeholderL =
      joinTerm ls ++ ((extraHeaderKey ++ " = ").toList ++ placeholderL ++ ['\n']) := by
    rw [gitConfigSet, hcfg, keyLine]
    simp [List.append_assoc]
  have hcount : countOcc placeholderL (gitConfigSet u.config extraHeaderKey placeholderL) = 1 := by
    rw [hcontent]
    rw [show joinTerm ls ++ ((extraHeaderKey ++ " = ").toList ++ placeholderL ++ ['\n'])
        = joinTerm ls ++ ((extraHeaderKey ++ " = ").toList ++ placeholderL ++ ['\n']) from rfl]
    rw [countOcc_joinTerm_append hplne hplnl ls]
    have hsum : (ls.map (countOcc placeholderL)).sum = 0 :=
      List.sum_eq_zero (by
        intro x hx
        rcases List.mem_map.mp hx with ⟨l, hl, rfl⟩
        exact hocc l hl)
    rw [hsum]
    norm_num
    decide
  set i := (joinTerm ls ++ (extraHeaderKey ++ " = ").toList).length with hi
  have hocc2 : placeholderL <+:
      (gitConfigSet u.config extraHeaderKey placeholderL).drop i := by
    rw [hcontent]
    have : joinTerm ls ++ ((extraHeaderKey ++ " = ").toList ++ placeholderL ++ ['\n'])
        = (joinTerm ls ++ (extraHeaderKey ++ " = ").toList) ++ (placeholderL ++ ['\n']) := by
      simp [List.append_assoc]
    rw [this, hi, List.drop_left]
    exact List.prefix_append _ _
  rw [configureToken_success st u htk hcount hocc2]
  have htake : (gitConfigSet u.config extraHeaderKey placeholderL).take i
      = joinTerm ls ++ (extraHeaderKey ++ " = ").toList := by
    rw [hcontent]
    have : joinTerm ls ++ ((extraHeaderKey ++ " = ").toList ++ placeholderL ++ ['\n'])
        = (joinTerm ls ++ (extraHeaderKey ++ " = ").toList) ++ (placeholderL ++ ['\n']) := by
      simp [List.append_assoc]
    rw [this, hi, List.take_left]
  have hdrop : (gitConfigSet u.config extraHeaderKey placeholderL).drop (i + placeholderL.length)
      = ['\n'] := by
    rw [hcontent]
    have : joinTerm ls ++ ((extraHeaderKey ++ " = ").toList ++ placeholderL ++ ['\n'])
        = ((joinTerm ls ++ (extraHeaderKey ++ " = ").toList) ++ placeholderL) ++ ['\n'] := by
      simp [List.append_assoc]
    rw [this]
    have hlen : i + placeholderL.length
        = ((joinTerm ls ++ (extraHeaderKey ++ " = ").toList) ++ placeholderL).length := by
      simp only [hi, List.length_append]
    rw [hlen, List.drop_left]
  rw [htake, hdrop]
  have hfin : joinTerm ls ++ (extraHeaderKey ++ " = ").toList ++ authHeaderValue st.authToken
        ++ ['\n']
      = joinTerm (ls ++ [keyLine extraHeaderKey (authHeaderValue st.authToken)]) := by
    rw [joinTerm_append]
    simp [joinTerm, keyLine, List.append_assoc]
  rw [hfin]

theorem configureSsh_skip (e : Env) (st : Settings) (u : Sys) (hssh : st.sshKey = "") :
    configureSsh e st u = (u, none) := by
  simp [configureSsh, hssh]

theorem configureSsh_nf (e : Env) (st : Settings) (u : Sys) (hssh : st.sshKey ≠ "")
    (hrt : e.runnerTemp ≠ "") :
    configureSsh e st u = (sshFinalSys e st u, none) := by
  rw [configureSsh, if_neg hssh, if_neg hrt]
  simp only [sshFinalSys, fsWrite, if_pos rfl, Option.getD_some, ite_self, List.nil_append]
  by_cases hp : st.persistCredentials
  · simp [hp, fsWrite]
  · simp [hp, fsWrite]

theorem removeGitConfig_skip (e : Env) (k : String) (s : Sys)
    (h : configExists k s.config = false) : removeGitConfig e k s = s := by
  simp [removeGitConfig, h]

theorem removeGitConfig_unset (e : Env) (k : String) (s : Sys)
    (h : configExists k s.config = true) (hu : e.unsetFails k = false) :
    removeGitConfig e k s = { s with config := unsetAll k s.config } := by
  simp [removeGitConfig, h, hu]

theorem removeSshFiles_paths_empty (e : Env) (s : Sys)
    (h1 : s.memSshKeyPath = "") (h2 : s.stateSshKeyPath = "")
    (h3 : s.memSshKnownHostsPath = "") (h4 : s.stateSshKnownHostsPath = "") :
    removeSshFiles e s = s := by
  simp [removeSshFiles, h1, h2, h3, h4]

theorem removeSshFiles_config (e : Env) (s : Sys) :
    (removeSshFiles e s).config = s.config := by
  simp only [removeSshFiles]
  split_ifs <;> rfl

theorem removeSshFiles_mem_paths (e : Env) (s : Sys)
    (hmem : s.memSshKeyPath ≠ "") (hkh : s.memSshKnownHostsPath ≠ "")
    (hrm : ∀ p, e.rmrfFails p = false) :
    removeSshFiles e s =
      { s with files := fsRemove (fsRemove s.files s.memSshKeyPath) s.memSshKnownHostsPath } := by
  simp [removeSshFiles, hmem, hkh, hrm]

theorem removeSsh_paths_empty (e : Env) (s : Sys)
    (h1 : s.memSshKeyPath = "") (h2 : s.stateSshKeyPath = "")
    (h3 : s.memSshKnownHostsPath = "") (h4 : s.stateSshKnownHostsPath = "") :
    removeSsh e s = removeGitConfig e sshCommandKey s := by
  rw [removeSsh, removeSshFiles_paths_empty e s h1 h2 h3 h4]

theorem configurePhase_nf (e : Env) (st : Settings) (u : Sys) (ls : List Str)
    (hcfg : u.config = joinTerm ls)
    (hocc : ∀ l ∈ ls, countOcc placeholderL l = 0)
    (hrt : st.sshKey ≠ "" → e.runnerTemp ≠ "")
    (hcmdocc : countOcc placeholderL (keyLine sshCommandKey (sshCommandOf e st).toList) = 0) :
    configurePhase e st u = (phaseFinalSys e st u ls, none) := by
  by_cases hssh : st.sshKey = ""
  · rw [configurePhase, configureSsh_skip e st u hssh]
    show configureToken st u = (phaseFinalSys e st u ls, none)
    rw [configureToken_clean st u ls hcfg hocc (by simp [hssh])]
    simp only [phaseFinalSys, sshConfigLines, tokenConfigLines, hssh]
    simp
  · rw [configurePhase, configureSsh_nf e st u hssh (hrt hssh)]
    by_cases hp : st.persistCredentials
    · have hcfg2 : (sshFinalSys e st u).config
          = joinTerm (ls ++ [keyLine sshCommandKey (sshCommandOf e st).toList]) := by
        simp only [sshFinalSys, if_pos hp, gitConfigSet, hcfg, joinTerm_append]
        simp [joinTerm]
      have hocc2 : ∀ l ∈ ls ++ [keyLine sshCommandKey (sshCommandOf e st).toList],
          countOcc placeholderL l = 0 := by
        intro l hl
        rcases List.mem_append.mp hl with hl | hl
        · exact hocc l hl
        · simp at hl
          subst hl
          exact hcmdocc
      show configureToken st (sshFinalSys e st u) = (phaseFinalSys e st u ls, none)
      rw [configureToken_clean st _ _ hcfg2 hocc2 (by simp [hp])]
      simp only [phaseFinalSys, sshConfigLines, tokenConfigLines, sshFinalSys, if_pos hp,
        hssh, ne_eq, not_false_iff, true_and, if_neg (by simp [hp] : ¬(st.sshKey ≠ "" ∧ st.persistCredentials = false))]
      simp [hssh, hp, List.append_assoc]
    · have hskip : st.sshKey ≠ "" ∧ st.persistCredentials = false := ⟨hssh, by simpa using hp⟩
      show configureToken st (sshFinalSys e st u) = (phaseFinalSys e st u ls, none)
      rw [show configureToken st (sshFinalSys e st u) = (sshFinalSys e st u, none) by
        simp [configureToken, hskip]]
      simp only [phaseFinalSys, sshConfigLines, tokenConfigLines, sshFinalSys,
        if_neg hp]
      simp [hssh, hp, hcfg]

theorem base64Digit_chars (n : Nat) : base64Digit n ∈ base64Chars ∨ base64Digit n = '?' := by
  rw [base64Digit]
  rcases h : base64Chars[n]? with _ | x
  · right
    simp [List.getD, h]
  · left
    have hx : x ∈ base64Chars := List.getElem?_mem h
    simpa [List.getD, h] using hx

theorem base64Bytes_chars : ∀ (bs : List Nat) (c : Char), c ∈ base64Bytes bs →
    c ∈ base64Chars ∨ c = '=' ∨ c = '?'
  | [], c => by simp [base64Bytes]
  | [a], c => by
    intro h
    simp only [base64Bytes, List.mem_cons, List.not_mem_nil, or_false] at h
    rcases h with h | h | h | h <;>
      first
      | (subst h
         rcases base64Digit_chars _ with hx | hx
         · exact Or.inl hx
         · exact Or.inr (Or.inr hx))
      | (subst h; exact Or.inr (Or.inl rfl))
  | [a, b], c => by
    intro h
    simp only [base64Bytes, List.mem_cons, List.not_mem_nil, or_false] at h
    rcases h with h | h | h | h <;>
      first
      | (subst h
         rcases base64Digit_chars _ with hx | hx
         · exact Or.inl hx
         · exact Or.inr (Or.inr hx))
      | (subst h; exact Or.inr (Or.inl rfl))
  | a :: b :: c' :: rest, c => by
    intro h
    simp only [base64Bytes, List.mem_cons] at h
    rcases h with h | h | h | h | h
    · subst h
      rcases base64Digit_chars _ with hx | hx
      · exact Or.inl hx
      · exact Or.inr (Or.inr hx)
    · subst h
      rcases base64Digit_chars _ with hx | hx
      · exact Or.inl hx
      · exact Or.inr (Or.inr hx)
    · subst h
      rcases base64Digit_chars _ with hx | hx
      · exact Or.inl hx
      · exact Or.inr (Or.inr hx)
    · subst h
      rcases base64Digit_chars _ with hx | hx
      · exact Or.inl hx
      · exact Or.inr (Or.inr hx)
    · exact base64Bytes_chars rest _ h

theorem nl_not_mem_base64 (bs : List Nat) : '\n' ∉ base64Bytes bs := by
  intro h
  rcases base64Bytes_chars bs _ h with hx | hx | hx
  · revert hx
    decide
  · exact absurd hx (by decide)
  · exact absurd hx (by decide)

theorem star_not_mem_base64 (bs : List Nat) : '*' ∉ base64Bytes bs := by
  intro h
  rcases base64Bytes_chars bs _ h with hx | hx | hx
  · revert hx
    decide
  · exact absurd hx (by decide)
  · exact absurd hx (by decide)

theorem nl_not_mem_ehLine (tok : String) :
    '\n' ∉ keyLine extraHeaderKey (authHeaderValue tok) := by
  intro h
  rw [keyLine, authHeaderValue] at h
  rcases List.mem_append.mp h with h | h
  · exact absurd h (by decide)
  · rcases List.mem_append.mp h with h | h
    · exact absurd h (by decide)
    · exact nl_not_mem_base64 _ h

theorem countOcc_ehLine_zero (tok : String) :
    countOcc placeholderL (keyLine extraHeaderKey (authHeaderValue tok)) = 0 := by
  apply countOcc_eq_zero_of_char (c := '*') (by decide)
  intro h
  rw [keyLine, authHeaderValue] at h
  rcases List.mem_append.mp h with h | h
  · exact absurd h (by decide)
  · rcases List.mem_append.mp h with h | h
    · exact absurd h (by decide)
    · exact star_not_mem_base64 _ h

theorem isKeyLine_eh_of_scLine (v : Str) :
    isKeyLine extraHeaderKey (keyLine sshCommandKey v) = false :=
  not_isKeyLine_of_head_ne v (by decide) (by decide)

theorem isKeyLine_sc_of_ehLine (v : Str) :
    isKeyLine sshCommandKey (keyLine extraHeaderKey v) = false :=
  not_isKeyLine_of_head_ne v (by decide) (by decide)

theorem filter_keyLine_clean {k : String} {ls : List Str}
    (h : ∀ l ∈ ls, isKeyLine k l = false) :
    ls.filter (fun l => ! isKeyLine k l) = ls :=
  List.filter_eq_self.mpr (fun l hl => by rw [h l hl]; rfl)

theorem removeGitConfig_config (e : Env) (k : String) (s : Sys) :
    (removeGitConfig e k s).config =
      if configExists k s.config ∧ e.unsetFails k = false then unsetAll k s.config
      else s.config := by
  simp only [removeGitConfig]
  split_ifs with h1 h2 <;> simp_all

theorem removeSsh_config (e : Env) (s : Sys) :
    (removeSsh e s).config =
      if configExists sshCommandKey s.config ∧ e.unsetFails sshCommandKey = false then
        unsetAll sshCommandKey s.config
      else s.config := by
  rw [removeSsh, removeGitConfig_config, removeSshFiles_config]

theorem removeToken_config (e : Env) (s : Sys) :
    (removeToken e s).config =
      if configExists extraHeaderKey s.config ∧ e.unsetFails extraHeaderKey = false then
        unsetAll extraHeaderKey s.config
      else s.config := by
  rw [removeToken, removeGitConfig_config]

/-- C8: confirmed.  `removeAuth` is a total function of the state (every
failure mode of its collaborators is caught, mirroring the source's catch
blocks and warning-only handling), and from any state in which
`configureAuth` was never run — no in-memory SSH paths, no persisted
job-state paths, and neither managed configuration key present — it returns
the state unchanged: no file is deleted, no configuration entry is touched,
no warning is emitted. -/
theorem c8_removeAuth_noop_when_unconfigured (e : Env) (s : Sys)
    (h1 : s.memSshKeyPath = "") (h2 : s.stateSshKeyPath = "")
    (h3 : s.memSshKnownHostsPath = "") (h4 : s.stateSshKnownHostsPath = "")
    (h5 : configExists sshCommandKey s.config = false)
    (h6 : configExists extraHeaderKey s.config = false) :
    removeAuth e s = s := by
  rw [removeAuth, removeSsh_paths_empty e s h1 h2 h3 h4, removeGitConfig_skip e _ s h5,
    removeToken, removeGitConfig_skip e _ s h6]

/-- Witness for C8 at the empty initial state. -/
theorem c8_removeAuth_noop_when_unconfigured_witness :
    (sysEmpty.memSshKeyPath = "" ∧ configExists sshCommandKey sysEmpty.config = false ∧
      configExists extraHeaderKey sysEmpty.config = false) ∧
    removeAuth envA sysEmpty = sysEmpty :=
  ⟨⟨rfl, by decide, by decide⟩,
    c8_removeAuth_noop_when_unconfigured envA sysEmpty rfl rfl rfl rfl (by decide) (by decide)⟩

theorem configExists_phase (e : Env) (st : Settings) (ls : List Str) (k : String)
    (hfree : ∀ l ∈ ls, '\n' ∉ l)
    (hcmdnl : '\n' ∉ (sshCommandOf e st).toList) :
    configExists k (joinTerm (ls ++ sshConfigLines e st ++ tokenConfigLines st))
      = (ls.any (isKeyLine k) || (sshConfigLines e st).any (isKeyLine k)
          || (tokenConfigLines st).any (isKeyLine k)) := by
  rw [configExists_joinTerm, List.any_append, List.any_append]
  intro l hl
  rcases List.mem_append.mp hl with hl | hl
  · rcases List.mem_append.mp hl with hl | hl
    · exact hfree l hl
    · rw [sshConfigLines] at hl
      split_ifs at hl <;> simp at hl
      subst hl
      intro hmem
      rw [keyLine] at hmem
      rcases List.mem_append.mp hmem with hmem | hmem
      · exact absurd hmem (by decide)
      · exact hcmdnl hmem
  · rw [tokenConfigLines] at hl
    split_ifs at hl <;> simp at hl
    subst hl
    exact nl_not_mem_ehLine st.authToken

theorem unsetAll_phase_sc (e : Env) (st : Settings) (ls : List Str)
    (hfree : ∀ l ∈ ls, '\n' ∉ l)
    (hsc : ∀ l ∈ ls, isKeyLine sshCommandKey l = false)
    (hcmdnl : '\n' ∉ (sshCommandOf e st).toList) :
    unsetAll sshCommandKey (joinTerm (ls ++ sshConfigLines e st ++ tokenConfigLines st))
      = joinTerm (ls ++ tokenConfigLines st) := by
  rw [unsetAll_joinTerm]
  · congr 1
    rw [List.filter_append, List.filter_append, filter_keyLine_clean hsc]
    congr 1
    · rw [sshConfigLines]
      split_ifs <;> simp [isKeyLine_keyLine]
    · rw [tokenConfigLines]
      split_ifs <;> simp [isKeyLine_sc_of_ehLine]
  · intro l hl
    rcases List.mem_append.mp hl with hl | hl
    · rcases List.mem_append.mp hl with hl | hl
      · exact hfree l hl
      · rw [sshConfigLines] at hl
        split_ifs at hl <;> simp at hl
        subst hl
        intro hmem
        rw [keyLine] at hmem
        rcases List.mem_append.mp hmem with hmem | hmem
        · exact absurd hmem (by decide)
        · exact hcmdnl hmem
    · rw [tokenConfigLines] at hl
      split_ifs at hl <;> simp at hl
      subst hl
      exact nl_not_mem_ehLine st.authToken

theorem unsetAll_token_lines (st : Settings) (ls : List Str)
    (hfree : ∀ l ∈ ls, '\n' ∉ l)
    (heh : ∀ l ∈ ls, isKeyLine extraHeaderKey l = false) :
    unsetAll extraHeaderKey (joinTerm (ls ++ tokenConfigLines st)) = joinTerm ls := by
  rw [unsetAll_joinTerm]
  · congr 1
    rw [List.filter_append, filter_keyLine_clean heh]
    rw [tokenConfigLines]
    split_ifs <;> simp [isKeyLine_keyLine]
  · intro l hl
    rcases List.mem_append.mp hl with hl | hl
    · exact hfree l hl
    · rw [tokenConfigLines] at hl
      split_ifs at hl <;> simp at hl
      subst hl
      exact nl_not_mem_ehLine st.authToken

theorem any_keyLine_false {k : String} {ls : List Str}
    (h : ∀ l ∈ ls, isKeyLine k l = false) : ls.any (isKeyLine k) = false := by
  rw [List.any_eq_false]
  intro l hl
  simp [h l hl]

/-- C4, amended and proved: provided the initial persisted configuration
file is a well-formed sequence of lines holding no entry under either
managed key (`core.sshCommand`, the extra-header key) and no occurrence of
the placeholder text, and the `git config --unset` collaborator succeeds,
`configureAuth()` succeeds and `configureAuth()` followed immediately by
`removeAuth()` restores the configuration file to byte-identical content.
The benign-environment hypotheses also require the constructed SSH command
to be newline-free and placeholder-free (it is a single config value). -/
theorem c4_round_trip_on_clean_config (e : Env) (st : Settings) (s : Sys) (ls : List Str)
    (hcfg : s.config = joinTerm ls)
    (hfree : ∀ l ∈ ls, '\n' ∉ l)
    (heh : ∀ l ∈ ls, isKeyLine extraHeaderKey l = false)
    (hsc : ∀ l ∈ ls, isKeyLine sshCommandKey l = false)
    (hocc : ∀ l ∈ ls, countOcc placeholderL l = 0)
    (hrt : st.sshKey ≠ "" → e.runnerTemp ≠ "")
    (hun : ∀ k, e.unsetFails k = false)
    (hcmdnl : '\n' ∉ (sshCommandOf e st).toList)
    (hcmdocc : countOcc placeholderL (keyLine sshCommandKey (sshCommandOf e st).toList) = 0) :
    (configureAuth e st s).2 = none ∧
    (removeAuth e (configureAuth e st s).1).config = s.config := by
  have hexs_sc : configExists sshCommandKey s.config = false := by
    rw [hcfg, configExists_joinTerm hfree]
    exact any_keyLine_false hsc
  have hexs_eh : configExists extraHeaderKey s.config = false := by
    rw [hcfg, configExists_joinTerm hfree]
    exact any_keyLine_false heh
  have hu2cfg : (removeToken e (removeSsh e s)).config = joinTerm ls := by
    have h1 : (removeSsh e s).config = s.config := by
      rw [removeSsh_config]
      simp [hexs_sc]
    rw [removeToken_config, h1, hexs_eh]
    simp [hcfg]
  have hpn := configurePhase_nf e st (removeToken e (removeSsh e s)) ls hu2cfg hocc hrt hcmdocc
  have hres2 : (configureAuth e st s).2 = none := by
    show (configurePhase e st (removeToken e (removeSsh e s))).2 = none
    rw [hpn]
  have hres1 : (configureAuth e st s).1
      = phaseFinalSys e st (removeToken e (removeSsh e s)) ls := by
    show (configurePhase e st (removeToken e (removeSsh e s))).1 = _
    rw [hpn]
  refine ⟨hres2, ?_⟩
  rw [hres1, removeAuth]
  have hfree_tok : ∀ l ∈ ls ++ tokenConfigLines st, '\n' ∉ l := by
    intro l hl
    rcases List.mem_append.mp hl with hl | hl
    · exact hfree l hl
    · rw [tokenConfigLines] at hl
      split_ifs at hl <;> simp at hl
      subst hl
      exact nl_not_mem_ehLine st.authToken
  have h1 : (removeSsh e (phaseFinalSys e st (removeToken e (removeSsh e s)) ls)).config
      = joinTerm (ls ++ tokenConfigLines st) := by
    rw [removeSsh_config]
    show (if configExists sshCommandKey
        (joinTerm (ls ++ sshConfigLines e st ++ tokenConfigLines st)) = true ∧
          e.unsetFails sshCommandKey = false then
        unsetAll sshCommandKey (joinTerm (ls ++ sshConfigLines e st ++ tokenConfigLines st))
      else joinTerm (ls ++ sshConfigLines e st ++ tokenConfigLines st))
      = joinTerm (ls ++ tokenConfigLines st)
    by_cases hpssh : st.sshKey ≠ "" ∧ st.persistCredentials = true
    · have hex : configExists sshCommandKey
          (joinTerm (ls ++ sshConfigLines e st ++ tokenConfigLines st)) = true := by
        rw [configExists_phase e st ls _ hfree hcmdnl]
        simp [sshConfigLines, hpssh, isKeyLine_keyLine]
      rw [if_pos ⟨hex, hun _⟩, unsetAll_phase_sc e st ls hfree hsc hcmdnl]
    · have hscempty : sshConfigLines e st = [] := by
        rw [sshConfigLines, if_neg hpssh]
      have hex : configExists sshCommandKey
          (joinTerm (ls ++ sshConfigLines e st ++ tokenConfigLines st)) = false := by
        rw [configExists_phase e st ls _ hfree hcmdnl]
        simp only [hscempty, List.any_nil, any_keyLine_false hsc, Bool.or_false,
          Bool.false_or]
        rw [tokenConfigLines]
        split_ifs <;> simp [isKeyLine_sc_of_ehLine]
      rw [if_neg (fun hcon => absurd hcon.1 (by rw [hex]; simp))]
      rw [hscempty]
      simp
  have h2 : (removeToken e (removeSsh e (phaseFinalSys e st (removeToken e (removeSsh e s)) ls))).config
      = joinTerm ls := by
    rw [removeToken_config, h1]
    by_cases htk : st.sshKey ≠ "" ∧ st.persistCredentials = false
    · have htok : tokenConfigLines st = [] := by rw [tokenConfigLines, if_pos htk]
      rw [htok]
      have hex : configExists extraHeaderKey (joinTerm (ls ++ [])) = false := by
        rw [configExists_joinTerm (by simpa using hfree)]
        simp [any_keyLine_false heh]
      rw [hex]
      simp
    · have htok : tokenConfigLines st = [keyLine extraHeaderKey (authHeaderValue st.authToken)] := by
        rw [tokenConfigLines, if_neg htk]
      have hex : configExists extraHeaderKey (joinTerm (ls ++ tokenConfigLines st)) = true := by
        rw [configExists_joinTerm hfree_tok]
        simp [htok, isKeyLine_keyLine]
      rw [if_pos ⟨hex, hun _⟩, unsetAll_token_lines st ls hfree heh]
  rw [h2, hcfg]

/-- Witness for C4's amended round trip at a concrete clean input. -/
theorem c4_round_trip_on_clean_config_witness :
    sysEmpty.config = joinTerm [] ∧
    ((configureAuth envA settingsTokenOnly sysEmpty).2 = none ∧
      (removeAuth envA (configureAuth envA settingsTokenOnly sysEmpty).1).config
        = sysEmpty.config) :=
  ⟨rfl,
    c4_round_trip_on_clean_config envA settingsTokenOnly sysEmpty []
      rfl (by simp) (by simp) (by simp) (by simp)
      (fun h => absurd rfl h)
      (fun _ => rfl)
      (by set_option maxRecDepth 10000 in decide)
      (by set_option maxRecDepth 40000 in decide)⟩

theorem sshKeyPathOf_ne (e : Env) : sshKeyPathOf e ≠ "" := by
  rw [sshKeyPathOf]
  intro h
  have h2 := congrArg String.length h
  simp [String.length_append] at h2
  exact absurd h2.1.2 (by decide)

theorem sshKnownHostsPathOf_ne (e : Env) : sshKnownHostsPathOf e ≠ "" := by
  rw [sshKnownHostsPathOf]
  intro h
  have h2 := congrArg String.length h
  simp [String.length_append] at h2
  exact absurd h2.2 (by decide)

theorem reset_stale (e : Env) (s : Sys) (ls : List Str) (v : Str)
    (hcfg : s.config = joinTerm (ls ++ [keyLine extraHeaderKey v]))
    (hfree : ∀ l ∈ ls, '\n' ∉ l)
    (heh : ∀ l ∈ ls, isKeyLine extraHeaderKey l = false)
    (hsc : ∀ l ∈ ls, isKeyLine sshCommandKey l = false)
    (hv : '\n' ∉ v)
    (hpaths : s.memSshKeyPath = "" ∧ s.stateSshKeyPath = "" ∧
      s.memSshKnownHostsPath = "" ∧ s.stateSshKnownHostsPath = "")
    (hun : ∀ k, e.unsetFails k = false) :
    removeToken e (removeSsh e s) = { s with config := joinTerm ls } := by
  have hfree_all : ∀ l ∈ ls ++ [keyLine extraHeaderKey v], '\n' ∉ l := by
    intro l hl
    rcases List.mem_append.mp hl with hl | hl
    · exact hfree l hl
    · simp at hl
      subst hl
      intro hmem
      rw [keyLine] at hmem
      rcases List.mem_append.mp hmem with hmem | hmem
      · exact absurd hmem (by decide)
      · exact hv hmem
  have hstep1 : removeSsh e s = s := by
    rw [removeSsh, removeSshFiles_paths_empty e s hpaths.1 hpaths.2.1 hpaths.2.2.1 hpaths.2.2.2]
    apply removeGitConfig_skip
    rw [hcfg, configExists_joinTerm hfree_all]
    apply any_keyLine_false
    intro l hl
    rcases List.mem_append.mp hl with hl | hl
    · exact hsc l hl
    · simp at hl
      subst hl
      exact isKeyLine_sc_of_ehLine v
  rw [hstep1]
  have hex : configExists extraHeaderKey s.config = true := by
    rw [hcfg, configExists_joinTerm hfree_all]
    simp [isKeyLine_keyLine]
  rw [removeToken, removeGitConfig_unset e _ s hex (hun _)]
  congr 1
  rw [hcfg, unsetAll_joinTerm hfree_all]
  congr 1
  rw [List.filter_append, filter_keyLine_clean heh]
  simp [isKeyLine_keyLine]

theorem removeGitConfig_frame (e : Env) (k : String) (s : Sys)
    (hu : e.unsetFails k = false) :
    removeGitConfig e k s = { s with config := (removeGitConfig e k s).config } := by
  simp only [removeGitConfig, hu]
  split_ifs with h1 h2
  · exact absurd h2 (by simp)
  · rfl
  · rfl

theorem phase_unset_sc_config (eu : Env) (e : Env) (st : Settings) (ls : List Str)
    (hfree : ∀ l ∈ ls, '\n' ∉ l)
    (hsc : ∀ l ∈ ls, isKeyLine sshCommandKey l = false)
    (hcmdnl : '\n' ∉ (sshCommandOf e st).toList)
    (hun : ∀ k, eu.unsetFails k = false) :
    (if configExists sshCommandKey
        (joinTerm (ls ++ sshConfigLines e st ++ tokenConfigLines st)) = true ∧
          eu.unsetFails sshCommandKey = false then
      unsetAll sshCommandKey (joinTerm (ls ++ sshConfigLines e st ++ tokenConfigLines st))
    else joinTerm (ls ++ sshConfigLines e st ++ tokenConfigLines st))
      = joinTerm (ls ++ tokenConfigLines st) := by
  by_cases hpssh : st.sshKey ≠ "" ∧ st.persistCredentials = true
  · have hex : configExists sshCommandKey
        (joinTerm (ls ++ sshConfigLines e st ++ tokenConfigLines st)) = true := by
      rw [configExists_phase e st ls _ hfree hcmdnl]
      simp [sshConfigLines, hpssh, isKeyLine_keyLine]
    rw [if_pos ⟨hex, hun _⟩, unsetAll_phase_sc e st ls hfree hsc hcmdnl]
  · have hscempty : sshConfigLines e st = [] := by
      rw [sshConfigLines, if_neg hpssh]
    have hex : configExists sshCommandKey
        (joinTerm (ls ++ sshConfigLines e st ++ tokenConfigLines st)) = false := by
      rw [configExists_phase e st ls _ hfree hcmdnl]
      simp only [hscempty, List.any_nil, any_keyLine_false hsc, Bool.or_false, Bool.false_or]
      rw [tokenConfigLines]
      split_ifs <;> simp [isKeyLine_sc_of_ehLine]
    rw [if_neg (fun hcon => absurd hcon.1 (by rw [hex]; simp))]
    rw [hscempty]
    simp

theorem token_unset_eh_config (eu : Env) (st : Settings) (ls : List Str)
    (hfree : ∀ l ∈ ls, '\n' ∉ l)
    (heh : ∀ l ∈ ls, isKeyLine extraHeaderKey l = false)
    (hun : ∀ k, eu.unsetFails k = false) :
    (if configExists extraHeaderKey (joinTerm (ls ++ tokenConfigLines st)) = true ∧
          eu.unsetFails extraHeaderKey = false then
      unsetAll extraHeaderKey (joinTerm (ls ++ tokenConfigLines st))
    else joinTerm (ls ++ tokenConfigLines st))
      = joinTerm ls := by
  have hfree_tok : ∀ l ∈ ls ++ tokenConfigLines st, '\n' ∉ l := by
    intro l hl
    rcases List.mem_append.mp hl with hl | hl
    · exact hfree l hl
    · rw [tokenConfigLines] at hl
      split_ifs at hl <;> simp at hl
      subst hl
      exact nl_not_mem_ehLine st.authToken
  by_cases htk : st.sshKey ≠ "" ∧ st.persistCredentials = false
  · have htok : tokenConfigLines st = [] := by rw [tokenConfigLines, if_pos htk]
    have hex : configExists extraHeaderKey (joinTerm (ls ++ tokenConfigLines st)) = false := by
      rw [configExists_joinTerm hfree_tok]
      rw [htok]
      simp [any_keyLine_false heh]
    rw [if_neg (fun hcon => absurd hcon.1 (by rw [hex]; simp))]
    rw [htok]
    simp
  · have htok : tokenConfigLines st = [keyLine extraHeaderKey (authHeaderValue st.authToken)] := by
      rw [tokenConfigLines, if_neg htk]
    have hex : configExists extraHeaderKey (joinTerm (ls ++ tokenConfigLines st)) = true := by
      rw [configExists_joinTerm hfree_tok]
      simp [htok, isKeyLine_keyLine]
    rw [if_pos ⟨hex, hun _⟩, unsetAll_token_lines st ls hfree heh]

theorem removes_after_phase_no_ssh (eu : Env) (e : Env) (st : Settings) (u : Sys) (ls : List Str)
    (hss : st.sshKey = "")
    (hfree : ∀ l ∈ ls, '\n' ∉ l)
    (heh : ∀ l ∈ ls, isKeyLine extraHeaderKey l = false)
    (hsc : ∀ l ∈ ls, isKeyLine sshCommandKey l = false)
    (hcmdnl : '\n' ∉ (sshCommandOf e st).toList)
    (hun : ∀ k, eu.unsetFails k = false)
    (hpaths : u.memSshKeyPath = "" ∧ u.stateSshKeyPath = "" ∧
      u.memSshKnownHostsPath = "" ∧ u.stateSshKnownHostsPath = "") :
    removeToken eu (removeSsh eu (phaseFinalSys e st u ls))
      = { phaseFinalSys e st u ls with config := joinTerm ls } := by
  have hTpaths : (phaseFinalSys e st u ls).memSshKeyPath = "" ∧
      (phaseFinalSys e st u ls).stateSshKeyPath = "" ∧
      (phaseFinalSys e st u ls).memSshKnownHostsPath = "" ∧
      (phaseFinalSys e st u ls).stateSshKnownHostsPath = "" := by
    simp [phaseFinalSys, hss, hpaths.1, hpaths.2.1, hpaths.2.2.1, hpaths.2.2.2]
  have hs1 : removeSsh eu (phaseFinalSys e st u ls)
      = { phaseFinalSys e st u ls with
          config := joinTerm (ls ++ tokenConfigLines st) } := by
    rw [removeSsh, removeSshFiles_paths_empty eu _ hTpaths.1 hTpaths.2.1 hTpaths.2.2.1
      hTpaths.2.2.2]
    rw [removeGitConfig_frame eu _ _ (hun _)]
    rw [show (removeGitConfig eu sshCommandKey (phaseFinalSys e st u ls)).config
        = joinTerm (ls ++ tokenConfigLines st) from ?_]
    rw [removeGitConfig_config]
    exact phase_unset_sc_config eu e st ls hfree hsc hcmdnl hun
  rw [hs1, removeToken, removeGitConfig_frame eu _ _ (hun _)]
  rw [show (removeGitConfig eu extraHeaderKey
      { phaseFinalSys e st u ls with config := joinTerm (ls ++ tokenConfigLines st) }).config
      = joinTerm ls from ?_]
  rw [removeGitConfig_config]
  exact token_unset_eh_config eu st ls hfree heh hun

theorem removes_after_phase_ssh (eu : Env) (e : Env) (st : Settings) (u : Sys) (ls : List Str)
    (hss : st.sshKey ≠ "")
    (hfree : ∀ l ∈ ls, '\n' ∉ l)
    (heh : ∀ l ∈ ls, isKeyLine extraHeaderKey l = false)
    (hsc : ∀ l ∈ ls, isKeyLine sshCommandKey l = false)
    (hcmdnl : '\n' ∉ (sshCommandOf e st).toList)
    (hun : ∀ k, eu.unsetFails k = false)
    (hrm : ∀ p, eu.rmrfFails p = false) :
    removeToken eu (removeSsh eu (phaseFinalSys e st u ls))
      = { phaseFinalSys e st u ls with
          files := fsRemove (fsRemove (phaseFinalSys e st u ls).files (sshKeyPathOf e))
            (sshKnownHostsPathOf e),
          config := joinTerm ls } := by
  have hTmem : (phaseFinalSys e st u ls).memSshKeyPath = sshKeyPathOf e := by
    simp [phaseFinalSys, hss]
  have hTmemkh : (phaseFinalSys e st u ls).memSshKnownHostsPath = sshKnownHostsPathOf e := by
    simp [phaseFinalSys, hss]
  have hfile : removeSshFiles eu (phaseFinalSys e st u ls)
      = { phaseFinalSys e st u ls with
          files := fsRemove (fsRemove (phaseFinalSys e st u ls).files (sshKeyPathOf e))
            (sshKnownHostsPathOf e) } := by
    rw [removeSshFiles_mem_paths eu _ (by rw [hTmem]; exact sshKeyPathOf_ne e)
      (by rw [hTmemkh]; exact sshKnownHostsPathOf_ne e) hrm]
    refine Sys.ext ?_ ?_ ?_ ?_ ?_ ?_ ?_ ?_ ?_ ?_ ?_ <;> simp [hTmem, hTmemkh]
  have hs1 : removeSsh eu (phaseFinalSys e st u ls)
      = { phaseFinalSys e st u ls with
          files := fsRemove (fsRemove (phaseFinalSys e st u ls).files (sshKeyPathOf e))
            (sshKnownHostsPathOf e),
          config := joinTerm (ls ++ tokenConfigLines st) } := by
    rw [removeSsh, hfile, removeGitConfig_frame eu _ _ (hun _)]
    rw [show (removeGitConfig eu sshCommandKey
        { phaseFinalSys e st u ls with
          files := fsRemove (fsRemove (phaseFinalSys e st u ls).files (sshKeyPathOf e))
            (sshKnownHostsPathOf e) }).config
        = joinTerm (ls ++ tokenConfigLines st) from ?_]
    rw [removeGitConfig_config]
    exact phase_unset_sc_config eu e st ls hfree hsc hcmdnl hun
  rw [hs1, removeToken, removeGitConfig_frame eu _ _ (hun _)]
  rw [show (removeGitConfig eu extraHeaderKey
      { phaseFinalSys e st u ls with
        files := fsRemove (fsRemove (phaseFinalSys e st u ls).files (sshKeyPathOf e))
          (sshKnownHostsPathOf e),
        config := joinTerm (ls ++ tokenConfigLines st) }).config
      = joinTerm ls from ?_]
  rw [removeGitConfig_config]
  exact token_unset_eh_config eu st ls hfree heh hun

/-- C9: confirmed.  `configureAuth` begins by removing previously installed
credential material (`removeSsh` then `removeToken`) before installing new
material.  Consequently, starting from a state a prior run left behind with
an extra-header entry of arbitrary value `v` in the persisted configuration
(even a stale placeholder), `configureAuth` succeeds — the exactly-once
placeholder check does not fire — a second consecutive `configureAuth` also
succeeds, and the credential state (configuration file, file system, git
environment, path fields) after two consecutive calls equals the credential
state after the single second call alone.  Hypotheses: the rest of the
configuration is clean and single-line, the helper starts with no recorded
paths, the files at the first call's fresh paths do not pre-exist, the
best-effort collaborators succeed, and the constructed SSH command strings
are newline-free and placeholder-free. -/
theorem c9_reset_before_install_and_idempotent
    (e1 e2 : Env) (st : Settings) (s : Sys) (ls : List Str) (v : Str)
    (hcfg : s.config = joinTerm (ls ++ [keyLine extraHeaderKey v]))
    (hfree : ∀ l ∈ ls, '\n' ∉ l)
    (heh : ∀ l ∈ ls, isKeyLine extraHeaderKey l = false)
    (hsc : ∀ l ∈ ls, isKeyLine sshCommandKey l = false)
    (hocc : ∀ l ∈ ls, countOcc placeholderL l = 0)
    (hv : '\n' ∉ v)
    (hpaths : s.memSshKeyPath = "" ∧ s.stateSshKeyPath = "" ∧
      s.memSshKnownHostsPath = "" ∧ s.stateSshKnownHostsPath = "")
    (hfiles : s.files (sshKeyPathOf e1) = none ∧ s.files (sshKnownHostsPathOf e1) = none)
    (hrt1 : st.sshKey ≠ "" → e1.runnerTemp ≠ "")
    (hrt2 : st.sshKey ≠ "" → e2.runnerTemp ≠ "")
    (hun1 : ∀ k, e1.unsetFails k = false)
    (hun2 : ∀ k, e2.unsetFails k = false)
    (hrm2 : ∀ p, e2.rmrfFails p = false)
    (hcmdnl1 : '\n' ∉ (sshCommandOf e1 st).toList)
    (hcmdocc1 : countOcc placeholderL (keyLine sshCommandKey (sshCommandOf e1 st).toList) = 0)
    (hcmdocc2 : countOcc placeholderL (keyLine sshCommandKey (sshCommandOf e2 st).toList) = 0) :
    (configureAuth e1 st s).2 = none ∧
    (configureAuth e2 st (configureAuth e1 st s).1).2 = none ∧
    credView (configureAuth e2 st (configureAuth e1 st s).1).1
      = credView (configureAuth e2 st s).1 := by
  have hreset1 : removeToken e1 (removeSsh e1 s) = { s with config := joinTerm ls } :=
    reset_stale e1 s ls v hcfg hfree heh hsc hv hpaths hun1
  have hreset2 : removeToken e2 (removeSsh e2 s) = { s with config := joinTerm ls } :=
    reset_stale e2 s ls v hcfg hfree heh hsc hv hpaths hun2
  have hA1 : configureAuth e1 st s
      = (phaseFinalSys e1 st { s with config := joinTerm ls } ls, none) := by
    show configurePhase e1 st (removeToken e1 (removeSsh e1 s)) = _
    rw [hreset1, configurePhase_nf e1 st _ ls rfl hocc hrt1 hcmdocc1]
  have hS : configureAuth e2 st s
      = (phaseFinalSys e2 st { s with config := joinTerm ls } ls, none) := by
    show configurePhase e2 st (removeToken e2 (removeSsh e2 s)) = _
    rw [hreset2, configurePhase_nf e2 st _ ls rfl hocc hrt2 hcmdocc2]
  have hcleanpaths : ({ s with config := joinTerm ls } : Sys).memSshKeyPath = "" ∧
      ({ s with config := joinTerm ls } : Sys).stateSshKeyPath = "" ∧
      ({ s with config := joinTerm ls } : Sys).memSshKnownHostsPath = "" ∧
      ({ s with config := joinTerm ls } : Sys).stateSshKnownHostsPath = "" := hpaths
  refine ⟨by rw [hA1], ?_, ?_⟩
  · rw [hA1]
    show (configureAuth e2 st (phaseFinalSys e1 st { s with config := joinTerm ls } ls)).2 = none
    by_cases hss : st.sshKey = ""
    · show (configurePhase e2 st (removeToken e2 (removeSsh e2 _))).2 = none
      rw [removes_after_phase_no_ssh e2 e1 st _ ls hss hfree heh hsc hcmdnl1 hun2 hcleanpaths,
        configurePhase_nf e2 st _ ls rfl hocc hrt2 hcmdocc2]
    · show (configurePhase e2 st (removeToken e2 (removeSsh e2 _))).2 = none
      rw [removes_after_phase_ssh e2 e1 st _ ls hss hfree heh hsc hcmdnl1 hun2 hrm2,
        configurePhase_nf e2 st _ ls rfl hocc hrt2 hcmdocc2]
  · rw [hA1, hS]
    show credView (configurePhase e2 st (removeToken e2 (removeSsh e2 _))).1 = _
    by_cases hss : st.sshKey = ""
    · rw [removes_after_phase_no_ssh e2 e1 st _ ls hss hfree heh hsc hcmdnl1 hun2 hcleanpaths,
        configurePhase_nf e2 st _ ls rfl hocc hrt2 hcmdocc2]
      refine CredView.ext ?_ ?_ ?_ ?_ ?_ ?_ ?_ <;>
        simp [credView, phaseFinalSys, hss]
    · rw [removes_after_phase_ssh e2 e1 st _ ls hss hfree heh hsc hcmdnl1 hun2 hrm2,
        configurePhase_nf e2 st _ ls rfl hocc hrt2 hcmdocc2]
      refine CredView.ext ?_ ?_ ?_ ?_ ?_ ?_ ?_
      · rfl
      · funext q
        simp only [credView, phaseFinalSys, hss, fsWrite, fsRemove, ne_eq,
          not_false_iff, if_true, ite_not, if_neg hss]
        split_ifs <;> simp_all
      · funext k
        simp only [credView, phaseFinalSys, hss, ne_eq, not_false_iff, if_true, ite_not,
          if_neg hss]
        split_ifs <;> rfl
      · simp [credView, phaseFinalSys, hss]
      · simp [credView, phaseFinalSys, hss]
      · simp [credView, phaseFinalSys, hss]
      · simp [credView, phaseFinalSys, hss]

/-- C7, amended and proved: when an SSH key is supplied, `configureSsh`
succeeds and installs `GIT_SSH_COMMAND` as exactly the quoted ssh binary
path, followed by `-i <key path>`, followed — exactly when `sshStrict` was
requested — by `-o StrictHostKeyChecking=yes -o CheckHostIP=no`, followed by
`-o UserKnownHostsFile=<known-hosts path>`.  In particular the command
begins with the quoted binary path and contains `-i <key path>` and
`-o UserKnownHostsFile=<known-hosts path>`; the strict host-key-checking
flags occur when `sshStrict` is on; and when `sshStrict` is off the command
is exactly the base string, containing no host-key-checking or IP-checking
option at all (nothing is disabled; the claim's assertion that checking is
disabled when `sshStrict` is off does not hold). -/
theorem c7_ssh_command_structure (e : Env) (st : Settings) (s : Sys)
    (hssh : st.sshKey ≠ "") (hrt : e.runnerTemp ≠ "") :
    (configureSsh e st s).2 = none ∧
    (configureSsh e st s).1.gitEnv "GIT_SSH_COMMAND" = some (sshCommandOf e st) ∧
    ("\"" ++ e.sshPath ++ "\"").toList <+: (sshCommandOf e st).toList ∧
    (∃ i, (" -i " ++ sshKeyPathOf e).toList <+: (sshCommandOf e st).toList.drop i) ∧
    (∃ i, (" -o UserKnownHostsFile=" ++ sshKnownHostsPathOf e).toList <+:
      (sshCommandOf e st).toList.drop i) ∧
    (st.sshStrict = true →
      ∃ i, (" -o StrictHostKeyChecking=yes -o CheckHostIP=no").toList <+:
        (sshCommandOf e st).toList.drop i) ∧
    (st.sshStrict = false →
      sshCommandOf e st = "\"" ++ e.sshPath ++ "\" -i " ++ sshKeyPathOf e ++
        " -o UserKnownHostsFile=" ++ sshKnownHostsPathOf e) := by
  have hcmd : (sshCommandOf e st).toList
      = ("\"" ++ e.sshPath ++ "\"").toList ++
        ((" -i " ++ sshKeyPathOf e).toList ++
          (((if st.sshStrict then " -o StrictHostKeyChecking=yes -o CheckHostIP=no"
              else "") : String).toList ++
            (" -o UserKnownHostsFile=" ++ sshKnownHostsPathOf e).toList)) := by
    simp only [sshCommandOf, String.data_append]
    simp [String.toList, List.append_assoc]
  refine ⟨?_, ?_, ?_, ?_, ?_, ?_, ?_⟩
  · rw [configureSsh_nf e st s hssh hrt]
  · rw [configureSsh_nf e st s hssh hrt]
    simp [sshFinalSys]
  · rw [hcmd]
    exact List.prefix_append _ _
  · refine ⟨("\"" ++ e.sshPath ++ "\"").toList.length, ?_⟩
    rw [hcmd, List.drop_left]
    exact List.prefix_append _ _
  · refine ⟨(("\"" ++ e.sshPath ++ "\"").toList ++ (" -i " ++ sshKeyPathOf e).toList ++
      ((if st.sshStrict then " -o StrictHostKeyChecking=yes -o CheckHostIP=no"
        else "" : String)).toList).length, ?_⟩
    rw [hcmd]
    rw [show ("\"" ++ e.sshPath ++ "\"").toList ++
        ((" -i " ++ sshKeyPathOf e).toList ++
          (((if st.sshStrict then " -o StrictHostKeyChecking=yes -o CheckHostIP=no"
              else "") : String).toList ++
            (" -o UserKnownHostsFile=" ++ sshKnownHostsPathOf e).toList))
        = (("\"" ++ e.sshPath ++ "\"").toList ++ (" -i " ++ sshKeyPathOf e).toList ++
            ((if st.sshStrict then " -o StrictHostKeyChecking=yes -o CheckHostIP=no"
              else "" : String)).toList) ++
          (" -o UserKnownHostsFile=" ++ sshKnownHostsPathOf e).toList from by
      simp [List.append_assoc]]
    rw [List.drop_left]
  · intro hstrict
    rw [hstrict] at hcmd
    simp only [eq_self_iff_true, if_true] at hcmd
    refine ⟨(("\"" ++ e.sshPath ++ "\"").toList ++ (" -i " ++ sshKeyPathOf e).toList).length, ?_⟩
    rw [hcmd]
    rw [show ("\"" ++ e.sshPath ++ "\"").toList ++
        ((" -i " ++ sshKeyPathOf e).toList ++
          ((" -o StrictHostKeyChecking=yes -o CheckHostIP=no" : String).toList ++
            (" -o UserKnownHostsFile=" ++ sshKnownHostsPathOf e).toList))
        = (("\"" ++ e.sshPath ++ "\"").toList ++ (" -i " ++ sshKeyPathOf e).toList) ++
          ((" -o StrictHostKeyChecking=yes -o CheckHostIP=no" : String).toList ++
            (" -o UserKnownHostsFile=" ++ sshKnownHostsPathOf e).toList) from by
      simp [List.append_assoc]]
    rw [List.drop_left]
    exact List.prefix_append _ _
  · intro hstrict
    rw [sshCommandOf, hstrict]
    simp

/-- Witness for C7's amended command-structure theorem at a concrete input. -/
theorem c7_ssh_command_structure_witness :
    settingsSshNoStrict.sshKey ≠ "" ∧ envA.runnerTemp ≠ "" ∧
    ((configureSsh envA settingsSshNoStrict sysEmpty).2 = none ∧
      (configureSsh envA settingsSshNoStrict sysEmpty).1.gitEnv "GIT_SSH_COMMAND"
        = some (sshCommandOf envA settingsSshNoStrict) ∧
      ("\"" ++ envA.sshPath ++ "\"").toList <+: (sshCommandOf envA settingsSshNoStrict).toList ∧
      (∃ i, (" -i " ++ sshKeyPathOf envA).toList <+:
        (sshCommandOf envA settingsSshNoStrict).toList.drop i) ∧
      (∃ i, (" -o UserKnownHostsFile=" ++ sshKnownHostsPathOf envA).toList <+:
        (sshCommandOf envA settingsSshNoStrict).toList.drop i) ∧
      (settingsSshNoStrict.sshStrict = true →
        ∃ i, (" -o StrictHostKeyChecking=yes -o CheckHostIP=no").toList <+:
          (sshCommandOf envA settingsSshNoStrict).toList.drop i) ∧
      (settingsSshNoStrict.sshStrict = false →
        sshCommandOf envA settingsSshNoStrict = "\"" ++ envA.sshPath ++ "\" -i " ++
          sshKeyPathOf envA ++ " -o UserKnownHostsFile=" ++ sshKnownHostsPathOf envA)) :=
  ⟨by decide, by decide,
    c7_ssh_command_structure envA settingsSshNoStrict sysEmpty (by decide) (by decide)⟩

/-- Witness for C9 at a concrete stale-entry state, exercising the SSH and
persist-credentials path with two distinct fresh uuids. -/
theorem c9_reset_before_install_and_idempotent_witness :
    sysStale.config
      = joinTerm ([] ++ [keyLine extraHeaderKey ("AUTHORIZATION: basic xyz").toList]) ∧
    ((configureAuth envA settingsSshPersist sysStale).2 = none ∧
      (configureAuth envB settingsSshPersist
        (configureAuth envA settingsSshPersist sysStale).1).2 = none ∧
      credView (configureAuth envB settingsSshPersist
          (configureAuth envA settingsSshPersist sysStale).1).1
        = credView (configureAuth envB settingsSshPersist sysStale).1) :=
  ⟨by set_option maxRecDepth 10000 in decide,
    c9_reset_before_install_and_idempotent envA envB settingsSshPersist sysStale []
      (("AUTHORIZATION: basic xyz").toList)
      (by set_option maxRecDepth 10000 in decide)
      (by simp) (by simp) (by simp) (by simp)
      (by decide)
      ⟨rfl, rfl, rfl, rfl⟩
      ⟨rfl, rfl⟩
      (fun _ => by decide) (fun _ => by decide)
      (fun _ => rfl) (fun _ => rfl) (fun _ => rfl)
      (by set_option maxRecDepth 40000 in decide)
      (by set_option maxRecDepth 100000 in decide)
      (by set_option maxRecDepth 100000 in decide)⟩

end Checkout
